import Mathlib

/-!
Verification development for the bxgateway block/transaction propagation
pipeline.  Byte buffers are modelled as `List Nat` (each element one byte);
Python absolute indexing `buf[i]` becomes `List.getD buf i 0` and slicing
`buf[a:b]` becomes `pySlice`.  Python functions from
`bxgateway/messages/btc/btc_normal_message_converter.py` and
`bxgateway/services/block_processing_service.py` are embedded as executable
Lean definitions; helper modules that live outside the distilled source
(`bxcommon`, `btc_constants`, `btc_messages_util`) are modelled from the
specification and marked as such in their doc comments.
-/

/-- Python slice `buf[a:b]` on a byte list. -/
def pySlice (buf : List Nat) (a b : Nat) : List Nat :=
  (buf.drop a).take (b - a)

/-- Little-endian encoding of `n` into exactly `k` bytes (`struct.pack` of
`<H`/`<L`/`<Q` for `k` = 2, 4, 8). -/
def leBytes : Nat → Nat → List Nat
  | 0, _ => []
  | k + 1, n => (n % 256) :: leBytes k (n / 256)

/-- Little-endian read of `k` bytes of `buf` starting at absolute offset
`off` (`struct.unpack_from` of the corresponding format). -/
def readLE : Nat → List Nat → Nat → Nat
  | 0, _, _ => 0
  | k + 1, buf, off => buf.getD off 0 + 256 * readLE k buf (off + 1)

/-- Bitcoin protocol variable-length integer encoding, as produced by
`btc_messages_util.pack_int_to_btc_varint`.  Modelled from the spec: the
module `btc_messages_util` is not under src/; the spec fixes the standard
Bitcoin varint framing. -/
def btcVarint (n : Nat) : List Nat :=
  if n < 253 then [n]
  else if n < 2 ^ 16 then 253 :: leBytes 2 n
  else if n < 2 ^ 32 then 254 :: leBytes 4 n
  else 255 :: leBytes 8 n

/-- Bitcoin varint parse at absolute offset, returning `(value, size)`;
embeds `btc_messages_util.btc_varint_to_int`.  Modelled from the spec (the
module is not under src/). -/
def btc_varint_to_int (buf : List Nat) (off : Nat) : Nat × Nat :=
  let b := buf.getD off 0
  if b < 253 then (b, 1)
  else if b = 253 then (readLE 2 buf (off + 1), 3)
  else if b = 254 then (readLE 4 buf (off + 1), 5)
  else (readLE 8 buf (off + 1), 9)

/-- Serialized short-ids section: varint-framed u32 LE array.  Modelled from
the spec: `compact_block_short_ids_serializer.serialize_short_ids_into_bytes`
lives in bxcommon (not under src/); spec §3 fixes the layout as a
"varint-framed u32 array". -/
def serialize_short_ids_into_bytes (short_ids : List Nat) : List Nat :=
  btcVarint short_ids.length ++ (short_ids.map (leBytes 4)).flatten

/-- Read `count` u32 LE values starting at absolute offset `off`. -/
def readU32List (buf : List Nat) (off : Nat) : Nat → List Nat
  | 0 => []
  | k + 1 => readLE 4 buf off :: readU32List buf (off + 4) k

/-- Parse the trailing short-ids section at absolute offset `off`, returning
the short-id list and the serialized length.  Modelled from the spec:
`compact_block_short_ids_serializer.deserialize_short_ids_from_buffer` is in
bxcommon (not under src/). -/
def deserialize_short_ids_from_buffer (buf : List Nat) (off : Nat) : List Nat × Nat :=
  let (count, count_size) := btc_varint_to_int buf off
  (readU32List buf (off + count_size) count, count_size + 4 * count)

/-- Transaction-service state: the bidirectional hash-sid-contents map.
Modelled from the spec: `TransactionService` lives in bxcommon (not under
src/); spec §4.1 fixes the three associative structures (hash to sid,
sid to hash, hash to contents) and the operation contracts used here. -/
structure TransactionService where
  shortIdToHash : List (Nat × List Nat)
  hashToShortId : List (List Nat × Nat)
  hashToContents : List (List Nat × List Nat)
deriving Repr

/-- `NULL_TX_SID` from bxcommon constants: 0 is reserved for "no sid". -/
def NULL_TX_SID : Nat := 0

/-- `tx_service.get_short_id(hash)`: the assigned sid, or `NULL_TX_SID`.
Modelled from the spec (§4.1). -/
def get_short_id (ts : TransactionService) (h : List Nat) : Nat :=
  (ts.hashToShortId.lookup h).getD NULL_TX_SID

/-- `tx_service.get_transaction(sid)`: the `(hash, contents)` pair for a sid;
callers only use it after `get_missing_transactions` reported nothing
missing.  Modelled from the spec (§4.1). -/
def get_transaction (ts : TransactionService) (sid : Nat) : List Nat × List Nat :=
  match ts.shortIdToHash.lookup sid with
  | none => ([], [])
  | some h => (h, (ts.hashToContents.lookup h).getD [])

/-- One step of `get_missing_transactions`: classify a sid as having no known
hash, or a hash with no contents. -/
def missingOfSid (ts : TransactionService) (sid : Nat) : Option (Nat ⊕ List Nat) :=
  match ts.shortIdToHash.lookup sid with
  | none => some (Sum.inl sid)
  | some h =>
    match ts.hashToContents.lookup h with
    | none => some (Sum.inr h)
    | some _ => none

/-- `tx_service.get_missing_transactions(sids)`: sids with no known hash, and
hashes known by sid but with no contents.  Modelled from the spec (§4.1). -/
def get_missing_transactions (ts : TransactionService) (sids : List Nat) :
    Bool × List Nat × List (List Nat) :=
  let missing_sids := sids.filterMap (fun sid =>
    match missingOfSid ts sid with
    | some (Sum.inl s) => some s
    | _ => none)
  let missing_hashes := sids.filterMap (fun sid =>
    match missingOfSid ts sid with
    | some (Sum.inr h) => some h
    | _ => none)
  (!missing_sids.isEmpty || !missing_hashes.isEmpty, missing_sids, missing_hashes)

/-- `btc_constants.BTC_HDR_COMMON_OFF`: 24-byte Bitcoin message header. -/
def BTC_HDR_COMMON_OFF : Nat := 24

/-- `btc_constants.BTC_BLOCK_HDR_SIZE`: 80-byte Bitcoin block header. -/
def BTC_BLOCK_HDR_SIZE : Nat := 80

/-- `btc_constants.BTC_SHORT_ID_INDICATOR`.  Modelled from the spec:
`btc_constants.py` is not under src/; spec §3 fixes only that each
compressed transaction is replaced by a single indicator byte that cannot
begin a native transaction. -/
def BTC_SHORT_ID_INDICATOR : Nat := 255

/-- `constants.UL_ULL_SIZE_IN_BYTES`: size of the 8-byte offset word. -/
def UL_ULL_SIZE_IN_BYTES : Nat := 8

/-- A Bitcoin block message as consumed by `block_to_bx_block`: the 24-byte
message header, the 80-byte block header, and the transactions in native
order.  `BlockBtcMessage` itself is in `block_btc_message.py` (not under
src/); modelled from the spec, §6 Bitcoin framing. -/
structure BlockBtcMessage where
  msgHeader : List Nat
  blockHeader : List Nat
  txns : List (List Nat)
deriving Repr

/-- `block_msg.header()`: message header, block header and the transaction
count varint. -/
def BlockBtcMessage.header (b : BlockBtcMessage) : List Nat :=
  b.msgHeader ++ b.blockHeader ++ btcVarint b.txns.length

/-- `block_msg.rawbytes()`: full serialized message. -/
def BlockBtcMessage.rawbytes (b : BlockBtcMessage) : List Nat :=
  b.header ++ b.txns.flatten

/-- Raw bytes of a `BlockBtcMessage` constructed from a buffer
(`BlockBtcMessage(buf=...)`): the buffer trimmed to the 24-byte header plus
the payload length declared at bytes 16..19.  Modelled from the spec:
`btc_message.py` is not under src/; spec §6 fixes the framing
`[magic:u32][command:12][length:u32][checksum:4]` + payload. -/
def rawbytesOfBuf (buf : List Nat) : List Nat :=
  pySlice buf 0 (BTC_HDR_COMMON_OFF + readLE 4 buf 16)

/-- The body piece emitted by `block_to_bx_block` for one transaction: the
raw transaction when its sid is unknown, the 1-byte short-id indicator
otherwise (source lines 146-156). -/
def bxBlockPiece (getTxid : List Nat → List Nat) (ts : TransactionService)
    (tx : List Nat) : List Nat :=
  if get_short_id ts (getTxid tx) = NULL_TX_SID then tx
  else [BTC_SHORT_ID_INDICATOR]

/-- The short ids recorded by `block_to_bx_block`, in transaction order. -/
def bxBlockShortIds (getTxid : List Nat → List Nat) (ts : TransactionService)
    (txns : List (List Nat)) : List Nat :=
  txns.filterMap (fun tx =>
    if get_short_id ts (getTxid tx) = NULL_TX_SID then none
    else some (get_short_id ts (getTxid tx)))

/-- `BtcNormalMessageConverter.block_to_bx_block` (source lines 131-189):
compress a Bitcoin block into a bx-block.  Returns the bx-block bytes and
the recorded short-id list (the `BlockInfo` fields the claims use).
`get_txid` (dsha256 of the transaction, from `btc_messages_util`) is passed
as a function argument. -/
def block_to_bx_block (getTxid : List Nat → List Nat) (ts : TransactionService)
    (block_msg : BlockBtcMessage) : List Nat × List Nat :=
  let header := block_msg.header
  let body := (block_msg.txns.map (bxBlockPiece getTxid ts)).flatten
  let short_ids := bxBlockShortIds getTxid ts block_msg.txns
  let serialized_short_ids := serialize_short_ids_into_bytes short_ids
  let size := header.length + body.length + UL_ULL_SIZE_IN_BYTES
  (leBytes 8 size ++ header ++ body ++ serialized_short_ids, short_ids)

/-- `MessageConversionError` raised during conversion
(`message_conversion_error.btc_block_decompression_error`), carrying the
offending block hash. -/
inductive ConvError
  | decompression (block_hash : List Nat)
deriving Repr, DecidableEq

/-- The block hash carried by a conversion error. -/
def ConvError.msg_hash : ConvError → List Nat
  | .decompression h => h

/-- Result of `parse_bx_block_header` (source lines 42-71), together with the
header piece the source appends to the `block_pieces` deque. -/
structure BlockHeaderInfo where
  short_id_offset : Nat
  short_ids : List Nat
  short_ids_len : Nat
  block_hash : List Nat
  offset : Nat
  txn_count : Nat
  header_piece : List Nat
deriving Repr

/-- `parse_bx_block_header` (source lines 42-71): read the 8-byte short-ids
offset, deserialize the trailing short-ids section, hash the 80-byte block
header window with `crypto.bitcoin_hash` (passed as `bitcoinHash`), and parse
the transaction-count varint. -/
def parse_bx_block_header (bitcoinHash : List Nat → List Nat)
    (bx_block : List Nat) : BlockHeaderInfo :=
  let short_id_offset := readLE 8 bx_block 0
  let block_begin_offset := UL_ULL_SIZE_IN_BYTES
  let (short_ids, short_ids_len) := deserialize_short_ids_from_buffer bx_block short_id_offset
  let block_header_size := block_begin_offset + BTC_HDR_COMMON_OFF + BTC_BLOCK_HDR_SIZE
  let block_hash := bitcoinHash
    (pySlice bx_block (block_begin_offset + BTC_HDR_COMMON_OFF) block_header_size)
  let (txn_count, txn_count_size) := btc_varint_to_int bx_block block_header_size
  let offset := block_header_size + txn_count_size
  { short_id_offset := short_id_offset
    short_ids := short_ids
    short_ids_len := short_ids_len
    block_hash := block_hash
    offset := offset
    txn_count := txn_count
    header_piece := pySlice bx_block block_begin_offset offset }

/-- The `while offset < short_id_offset` loop of
`parse_bx_block_transactions` (source lines 89-109).  `getNextTxSize` embeds
`btc_messages_util.get_next_tx_size`; `none` is its hard failure for a
transaction-size walk past end-of-buffer (spec §4.2 edge policies).  The
fuel argument bounds iterations; the source loop always advances `offset`
for a real size walker, so fuel `short_id_offset` never runs out on the
inputs considered here.  Arguments after fuel: `offset`, `short_tx_index`,
`output_offset`, accumulated `block_pieces`. -/
def parse_bx_block_tx_loop (getNextTxSize : List Nat → Nat → Option Nat)
    (ts : TransactionService) (block_hash : List Nat) (bx_block : List Nat)
    (short_ids : List Nat) (short_id_offset : Nat) :
    Nat → Nat → Nat → Nat → List (List Nat) →
    Except ConvError (List (List Nat) × Nat)
  | 0, offset, _, output_offset, pieces =>
    if offset < short_id_offset then Except.error (ConvError.decompression block_hash)
    else Except.ok (pieces, output_offset)
  | fuel + 1, offset, short_tx_index, output_offset, pieces =>
    if offset < short_id_offset then
      if bx_block.getD offset 0 = BTC_SHORT_ID_INDICATOR then
        match short_ids[short_tx_index]? with
        | none => Except.error (ConvError.decompression block_hash)
        | some sid =>
          let tx := (get_transaction ts sid).2
          parse_bx_block_tx_loop getNextTxSize ts block_hash bx_block short_ids
            short_id_offset fuel (offset + 1) (short_tx_index + 1)
            (output_offset + tx.length) (pieces ++ [tx])
      else
        match getNextTxSize bx_block offset with
        | none => Except.error (ConvError.decompression block_hash)
        | some tx_size =>
          let tx := pySlice bx_block offset (offset + tx_size)
          parse_bx_block_tx_loop getNextTxSize ts block_hash bx_block short_ids
            short_id_offset fuel (offset + tx_size) short_tx_index
            (output_offset + tx.length) (pieces ++ [tx])
    else Except.ok (pieces, output_offset)

/-- `parse_bx_block_transactions` (source lines 74-110): report missing
transactions without walking the body, otherwise walk the body resolving
short-id indicators.  Returns `(unknown_sids, unknown_hashes, tx pieces,
output_offset)`. -/
def parse_bx_block_transactions (getNextTxSize : List Nat → Nat → Option Nat)
    (ts : TransactionService) (block_hash : List Nat) (bx_block : List Nat)
    (offset : Nat) (short_ids : List Nat) (short_id_offset : Nat) :
    Except ConvError (List Nat × List (List Nat) × List (List Nat) × Nat) :=
  let (has_missing, unknown_tx_sids, unknown_tx_hashes) :=
    get_missing_transactions ts short_ids
  if has_missing then Except.ok (unknown_tx_sids, unknown_tx_hashes, [], offset)
  else
    match parse_bx_block_tx_loop getNextTxSize ts block_hash bx_block short_ids
        short_id_offset short_id_offset offset 0 offset [] with
    | Except.error e => Except.error e
    | Except.ok (pieces, output_offset) =>
      Except.ok (unknown_tx_sids, unknown_tx_hashes, pieces, output_offset)

/-- `build_btc_block` (source lines 113-122): concatenate the pieces into a
`bytearray(size)`; bytes not written stay zero.  Returns the buffer and the
number of bytes written. -/
def build_btc_block (block_pieces : List (List Nat)) (size : Nat) :
    List Nat × Nat :=
  let joined := block_pieces.flatten
  (joined ++ List.replicate (size - joined.length) 0, joined.length)

/-- Result of `bx_block_to_block`: the reconstructed block message buffer (or
`none` when recovery is needed), and the `BlockInfo` fields the claims use
(block hash, short ids), plus the unresolved lists. -/
structure BxBlockResult where
  block_message : Option (List Nat)
  block_hash : List Nat
  short_ids : List Nat
  unknown_sids : List Nat
  unknown_hashes : List (List Nat)
deriving Repr

/-- `BtcNormalMessageConverter.bx_block_to_block` (source lines 191-238):
decompress a bx-block back into a Bitcoin block message. -/
def bx_block_to_block (bitcoinHash : List Nat → List Nat)
    (getNextTxSize : List Nat → Nat → Option Nat)
    (bx_block_msg : List Nat) (ts : TransactionService) :
    Except ConvError BxBlockResult :=
  let header_info := parse_bx_block_header bitcoinHash bx_block_msg
  match parse_bx_block_transactions getNextTxSize ts header_info.block_hash
      bx_block_msg header_info.offset header_info.short_ids
      header_info.short_id_offset with
  | Except.error e => Except.error e
  | Except.ok (unknown_tx_sids, unknown_tx_hashes, tx_pieces, offset) =>
    if unknown_tx_sids.isEmpty && unknown_tx_hashes.isEmpty then
      let (btc_block, _) := build_btc_block (header_info.header_piece :: tx_pieces) offset
      Except.ok
        { block_message := some btc_block
          block_hash := header_info.block_hash
          short_ids := header_info.short_ids
          unknown_sids := unknown_tx_sids
          unknown_hashes := unknown_tx_hashes }
    else
      Except.ok
        { block_message := none
          block_hash := header_info.block_hash
          short_ids := header_info.short_ids
          unknown_sids := unknown_tx_sids
          unknown_hashes := unknown_tx_hashes }

/-- Association-list lookup-preserving update of the first binding of `k`. -/
def updateA {α : Type} (k : Nat) (v : α) : List (Nat × α) → List (Nat × α)
  | [] => []
  | (k2, v2) :: rest => if k2 = k then (k, v) :: rest else (k2, v2) :: updateA k v rest

/-- Association-list deletion of a key (dict `del`): a Python dict holds at
most one binding per key, so deletion removes every binding of `k`. -/
def eraseA {α : Type} (k : Nat) (m : List (Nat × α)) : List (Nat × α) :=
  m.filter (fun p => p.1 != k)

/-- Insert-or-replace for an association list (dict assignment). -/
def upsertA {α : Type} (k : Nat) (v : α) (m : List (Nat × α)) : List (Nat × α) :=
  match m.lookup k with
  | none => m ++ [(k, v)]
  | some _ => updateA k v m

/-- Connection types used by `node.broadcast` filters
(`bxcommon.connections.connection_type`). -/
inductive ConnType
  | RELAY_BLOCK
  | RELAY_TRANSACTION
  | GATEWAY
deriving Repr, DecidableEq

/-- A block message at the service layer: only its hash and an opaque
payload identity matter to `BlockProcessingService`. -/
structure BlockMsg where
  block_hash : Nat
  payload : Nat
deriving Repr, DecidableEq

/-- Kinds of alarms the block processing service registers. -/
inductive AlarmKind
  | holdTimeout (block_hash : Nat)
  | recoveryRetry (block_hash : Nat) (delay : ℚ)
deriving Repr, DecidableEq

/-- `BlockHold` (source lines 32-52).  `connection` mirrors the attribute
`hold.connection` assigned dynamically in `queue_block_for_processing`
(source line 107). -/
structure BlockHoldS where
  hold_message_time : ℚ
  holding_connection : Nat
  block_message : Option BlockMsg
  alarm : Option Nat
  held_connection : Option Nat
  connection : Option Nat
deriving Repr, DecidableEq

/-- Observable effects of the block processing service: `node.broadcast`
calls (with the message kind, `prepend_to_queue` flag where the source
passes one, and connection-type filter), neutrality-service propagation,
decryption attempts, and hand-offs to `_handle_decrypted_block`. -/
inductive GwEvent
  | broadcastBlockHolding (block_hash : Nat) (prepend_to_queue : Bool)
      (connection_types : List ConnType)
  | broadcastBlockReceived (block_hash : Nat) (connection_types : List ConnType)
  | broadcastKey (block_hash : Nat) (connection_types : List ConnType)
  | broadcastGetTxs (short_ids : List Nat) (connection_types : List ConnType)
  | neutralityPropagate (block_hash : Nat)
  | conversionFailed (block_hash : Nat)
  | decryptAttempt (block_hash : Nat)
  | handleDecrypted (blob : Nat)
deriving Repr, DecidableEq

/-- State touched by `BlockProcessingService`: the expiring holds dict, the
node's `blocks_seen` cache, the alarm queue (registered alarms by id, plus
the set of unregistered ids), the `in_progress_blocks` ciphertext/key store,
the queuing service's hashes, the recovery service's records and attempt
counters, and the event log.  Stats calls (`block_stats`, `tx_stats`,
`track_block_from_bdn_handling_started`) are reporting only and are not
modelled. -/
structure GatewayState where
  holds : List (Nat × BlockHoldS)
  blocks_seen : List Nat
  alarms : List (Nat × AlarmKind)
  next_alarm_id : Nat
  unregistered_alarms : List Nat
  in_progress_keys : List (Nat × Nat)
  in_progress_ciphertexts : List (Nat × Nat)
  block_queue : List Nat
  recovery_attempts : List (Nat × Nat)
  recovery_block_hashes : List Nat
  events : List GwEvent
deriving Repr, DecidableEq

/-- A gateway state with nothing pending. -/
def initGatewayState : GatewayState :=
  { holds := [], blocks_seen := [], alarms := [], next_alarm_id := 0,
    unregistered_alarms := [], in_progress_keys := [],
    in_progress_ciphertexts := [], block_queue := [], recovery_attempts := [],
    recovery_block_hashes := [], events := [] }

/-- `BlockProcessingService.place_hold` (source lines 66-88): ignore hashes
already seen, otherwise create a hold on first request and broadcast a
`BlockHoldingMessage` to relay-block and gateway peers (no
`prepend_to_queue` argument, so the default `False`). -/
def place_hold (st : GatewayState) (block_hash : Nat) (connection : Nat)
    (now : ℚ) : GatewayState :=
  if block_hash ∈ st.blocks_seen then st
  else if (st.holds.lookup block_hash).isSome then st
  else
    { st with
      holds := st.holds ++ [(block_hash,
        { hold_message_time := now, holding_connection := connection,
          block_message := none, alarm := none, held_connection := none,
          connection := none })]
      events := st.events ++
        [GwEvent.broadcastBlockHolding block_hash false
          [ConnType.RELAY_BLOCK, ConnType.GATEWAY]] }

/-- `BlockProcessingService._process_and_broadcast_block` (source lines
264-312): compress via the converter (`convert`, returning `none` exactly
when `block_to_bx_block` raises `MessageConversionError`) and on success
hand the bx-block to the neutrality service. -/
def process_and_broadcast_block (convert : BlockMsg → Option Nat)
    (st : GatewayState) (block_message : BlockMsg) (_connection : Nat) :
    GatewayState :=
  let block_hash := block_message.block_hash
  match convert block_message with
  | none => { st with events := st.events ++ [GwEvent.conversionFailed block_hash] }
  | some _ => { st with events := st.events ++ [GwEvent.neutralityPropagate block_hash] }

/-- `BlockProcessingService.queue_block_for_processing` (source lines
90-119). -/
def queue_block_for_processing (convert : BlockMsg → Option Nat)
    (st : GatewayState) (block_message : BlockMsg) (connection : Nat) :
    GatewayState :=
  let block_hash := block_message.block_hash
  match st.holds.lookup block_hash with
  | some hold =>
    if hold.alarm = none then
      let alarm_id := st.next_alarm_id
      let hold2 := { hold with alarm := some alarm_id,
                               block_message := some block_message,
                               connection := some connection }
      { st with alarms := st.alarms ++ [(alarm_id, AlarmKind.holdTimeout block_hash)]
                next_alarm_id := alarm_id + 1
                holds := updateA block_hash hold2 st.holds }
    else st
  | none =>
    let st2 := { st with events := st.events ++
      [GwEvent.broadcastBlockHolding block_hash true
        [ConnType.RELAY_BLOCK, ConnType.GATEWAY]] }
    process_and_broadcast_block convert st2 block_message connection

/-- `BlockProcessingService._holding_timeout` (source lines 258-262): the
hold-timeout alarm callback compresses and propagates the held block.  The
source reads `hold.block_message` and `hold.connection` unconditionally;
they are always set by the call that armed the alarm. -/
def holding_timeout (convert : BlockMsg → Option Nat) (st : GatewayState)
    (_block_hash : Nat) (hold : BlockHoldS) : GatewayState :=
  match hold.block_message, hold.connection with
  | some bm, some c => process_and_broadcast_block convert st bm c
  | _, _ => st

/-- `BlockProcessingService.cancel_hold_timeout` (source lines 121-135). -/
def cancel_hold_timeout (st : GatewayState) (block_hash : Nat)
    (_connection : Nat) : GatewayState :=
  match st.holds.lookup block_hash with
  | none => st
  | some hold =>
    { st with
      unregistered_alarms :=
        match hold.alarm with
        | some a => st.unregistered_alarms ++ [a]
        | none => st.unregistered_alarms
      holds := eraseA block_hash st.holds }

/-- A BDN broadcast message as seen by `process_block_broadcast`. -/
structure BroadcastMsgS where
  block_hash : Nat
  is_encrypted : Bool
  blob : Nat
deriving Repr, DecidableEq

/-- A BDN key message as seen by `process_block_key`. -/
structure KeyMsgS where
  block_hash : Nat
  key : Nat
deriving Repr, DecidableEq

/-- `BlockProcessingService.process_block_broadcast` (source lines 137-192).
`dsha` is `crypto.double_sha256` on the opaque blob; `decrypt` is
`in_progress_blocks.decrypt_ciphertext` (bxcommon, modelled from the spec:
on success the in-progress entry is removed and the plaintext goes to
`_handle_decrypted_block`). -/
def process_block_broadcast (dsha : Nat → Nat) (decrypt : Nat → Nat → Option Nat)
    (st : GatewayState) (msg : BroadcastMsgS) (_connection : Nat) : GatewayState :=
  let block_hash := msg.block_hash
  if !msg.is_encrypted then
    { st with events := st.events ++ [GwEvent.handleDecrypted msg.blob] }
  else
    let cipherblob := msg.blob
    if block_hash ≠ dsha cipherblob then st
    else
      match st.in_progress_keys.lookup block_hash with
      | some key =>
        let st2 := { st with events := st.events ++ [GwEvent.decryptAttempt block_hash] }
        match decrypt key cipherblob with
        | some block =>
          { st2 with
            in_progress_keys := eraseA block_hash st2.in_progress_keys
            in_progress_ciphertexts := eraseA block_hash st2.in_progress_ciphertexts
            events := st2.events ++ [GwEvent.handleDecrypted block] }
        | none => st2
      | none =>
        { st with
          in_progress_ciphertexts := st.in_progress_ciphertexts ++ [(block_hash, cipherblob)]
          events := st.events ++ [GwEvent.broadcastBlockReceived block_hash [ConnType.GATEWAY]] }

/-- `BlockProcessingService.process_block_key` (source lines 194-240):
return immediately when the key is already known, otherwise decrypt a
stored ciphertext or store the key, then forward the key message to gateway
peers. -/
def process_block_key (decrypt : Nat → Nat → Option Nat) (st : GatewayState)
    (msg : KeyMsgS) (_connection : Nat) : GatewayState :=
  let key := msg.key
  let block_hash := msg.block_hash
  if (st.in_progress_keys.lookup block_hash).isSome then st
  else
    let st2 :=
      match st.in_progress_ciphertexts.lookup block_hash with
      | some ciphertext =>
        let stA := { st with events := st.events ++ [GwEvent.decryptAttempt block_hash] }
        match decrypt key ciphertext with
        | some block =>
          { stA with
            in_progress_keys := eraseA block_hash stA.in_progress_keys
            in_progress_ciphertexts := eraseA block_hash stA.in_progress_ciphertexts
            events := stA.events ++ [GwEvent.handleDecrypted block] }
        | none => stA
      | none =>
        { st with in_progress_keys := st.in_progress_keys ++ [(block_hash, key)] }
    { st2 with events := st2.events ++ [GwEvent.broadcastKey block_hash [ConnType.GATEWAY]] }

/-- `gateway_constants.BLOCK_RECOVERY_RECOVERY_INTERVAL_S` (source line
13). -/
def BLOCK_RECOVERY_RECOVERY_INTERVAL_S : List ℚ := [1/10, 1/2, 1, 2, 5]

/-- `gateway_constants.BLOCK_RECOVERY_MAX_RETRY_ATTEMPTS` (source line
14). -/
def BLOCK_RECOVERY_MAX_RETRY_ATTEMPTS : Nat :=
  BLOCK_RECOVERY_RECOVERY_INTERVAL_S.length

/-- `BlockRecoveryInfo` from `block_recovery_service.py` (not under src/);
the fields are those read by `schedule_recovery_retry` and
`_trigger_recovery_retry`.  Modelled from the spec (§4.4 recovery
record). -/
structure BlockRecoveryInfoS where
  block_hash : Nat
  unknown_short_ids : List Nat
  unknown_transaction_hashes : List Nat
  recovery_start_time : ℚ
deriving Repr, DecidableEq

/-- `BlockProcessingService.start_transaction_recovery` (source lines
442-473): gather the unknown sids plus the sids of the unknown hashes
(`get_sid` is `tx_service.get_short_id`) and broadcast a `GetTxs` to
relay-transaction peers. -/
def start_transaction_recovery (get_sid : Nat → Nat) (st : GatewayState)
    (unknown_sids : List Nat) (unknown_hashes : List Nat)
    (_block_hash : Nat) (_connection : Option Nat) : GatewayState :=
  let all_unknown_sids := unknown_sids ++ unknown_hashes.map get_sid
  { st with events := st.events ++
      [GwEvent.broadcastGetTxs all_unknown_sids [ConnType.RELAY_TRANSACTION]] }

/-- `BlockProcessingService.schedule_recovery_retry` (source lines 475-493).
`cancel_recovery_for_block` (bxcommon-side recovery service, not under
src/) is modelled from the spec: it drops the recovery record and its
attempt counter. -/
def schedule_recovery_retry (st : GatewayState) (info : BlockRecoveryInfoS)
    (now : ℚ) (recovery_timeout_s : ℚ) : GatewayState :=
  let block_hash := info.block_hash
  let recovery_attempts := (st.recovery_attempts.lookup block_hash).getD 0
  let recovery_timed_out := recovery_timeout_s ≤ now - info.recovery_start_time
  if BLOCK_RECOVERY_MAX_RETRY_ATTEMPTS ≤ recovery_attempts ∨ recovery_timed_out then
    { st with
      recovery_block_hashes := st.recovery_block_hashes.erase block_hash
      recovery_attempts := eraseA block_hash st.recovery_attempts
      block_queue := st.block_queue.erase block_hash }
  else
    let delay := BLOCK_RECOVERY_RECOVERY_INTERVAL_S.getD recovery_attempts 0
    { st with
      alarms := st.alarms ++ [(st.next_alarm_id, AlarmKind.recoveryRetry block_hash delay)]
      next_alarm_id := st.next_alarm_id + 1 }

/-- `BlockProcessingService._trigger_recovery_retry` (source lines 495-500):
the retry alarm callback increments the attempt counter and re-emits the
`GetTxs` request. -/
def trigger_recovery_retry (get_sid : Nat → Nat) (st : GatewayState)
    (info : BlockRecoveryInfoS) : GatewayState :=
  let block_hash := info.block_hash
  let attempts2 :=
    upsertA block_hash ((st.recovery_attempts.lookup block_hash).getD 0 + 1)
      st.recovery_attempts
  let st2 := { st with recovery_attempts := attempts2 }
  start_transaction_recovery get_sid st2 info.unknown_short_ids
    info.unknown_transaction_hashes block_hash none

/-- State touched by `AbstractRelayConnection.msg_tx` (source lines 86-154):
the transaction service's sid/contents stores, the duplicate and
redundant-content counters of `gateway_transaction_stats_service`, the
forwarding of native transactions to the blockchain node, the recovery
service's missing sid/hash sets (`check_missing_sid` /
`check_missing_tx_hash`, modelled from the spec §4.4 as membership checks),
and the count of `retry_broadcast_recovered_blocks` calls. -/
structure RelayTxState where
  hash_has_short_id : List Nat
  tx_contents : List (Nat × Nat)
  assigned_short_ids : List (Nat × Nat)
  duplicate_from_relay : Nat
  redundant_content : Nat
  forwarded_to_node : List Nat
  recovery_missing_sids : List Nat
  recovery_missing_hashes : List Nat
  retry_recovered_calls : Nat
  node_conn : Bool
deriving Repr, DecidableEq

/-- `AbstractRelayConnection.msg_tx` (source lines 86-154).  `short_id = 0`
is `NULL_TX_SID` (a falsy `short_id` in the source); `tx_val = none` is
`TxMessage.EMPTY_TX_VAL`. -/
def msg_tx (st : RelayTxState) (short_id : Nat) (tx_hash : Nat)
    (tx_val : Option Nat) : RelayTxState :=
  if short_id = 0 ∧ tx_hash ∈ st.hash_has_short_id ∧
      (st.tx_contents.lookup tx_hash).isSome then
    { st with duplicate_from_relay := st.duplicate_from_relay + 1 }
  else
    let st1 :=
      if short_id ≠ 0 then
        { st with
          assigned_short_ids := st.assigned_short_ids ++ [(tx_hash, short_id)]
          hash_has_short_id := st.hash_has_short_id ++ [tx_hash] }
      else st
    let attempt_recovery : Bool :=
      decide (short_id ≠ 0) && decide (short_id ∈ st.recovery_missing_sids)
    if (st1.tx_contents.lookup tx_hash).isSome then
      let st2 :=
        if tx_val ≠ none then
          { st1 with redundant_content := st1.redundant_content + 1 }
        else st1
      if attempt_recovery then
        { st2 with retry_recovered_calls := st2.retry_recovered_calls + 1 }
      else st2
    else
      let stv :=
        match tx_val with
        | none => st1
        | some v =>
          let stc := { st1 with tx_contents := st1.tx_contents ++ [(tx_hash, v)] }
          if stc.node_conn then
            { stc with forwarded_to_node := stc.forwarded_to_node ++ [tx_hash] }
          else stc
      let attempt_recovery2 : Bool :=
        attempt_recovery ||
          (decide (tx_val ≠ none) && decide (tx_hash ∈ st.recovery_missing_hashes))
      if attempt_recovery2 then
        { stv with retry_recovered_calls := stv.retry_recovered_calls + 1 }
      else stv

/-- `eth_constants.DISCOVERY_PONG_TIMEOUT_SEC` (eth_constants.py line 71). -/
def DISCOVERY_PONG_TIMEOUT_SEC : Nat := 5

/-- State of an `EthNodeDiscoveryConnection`
(`eth_node_discovery_connection.py`). -/
structure DiscoveryConnState where
  pings_sent : Nat
  pong_alarm_delay : Option Nat
  pong_received : Bool
  remote_public_key : Option Nat
  closed : Bool
  marked_for_close : Bool
deriving Repr, DecidableEq

/-- `EthNodeDiscoveryConnection.__init__` (source lines 21-44): send the
signed ping and register the pong-timeout alarm. -/
def eth_node_discovery_connection_init : DiscoveryConnState :=
  { pings_sent := 1, pong_alarm_delay := some DISCOVERY_PONG_TIMEOUT_SEC,
    pong_received := false, remote_public_key := none, closed := false,
    marked_for_close := false }

/-- Modelled from the spec: `node.set_remote_public_key` lives in
`abstract_gateway_node.py` (not under src/); spec §4.6 fixes its effect on
the discovery connection: "on `pong` record remote public key, then
close". -/
def set_remote_public_key (c : DiscoveryConnState) (pk : Nat) :
    DiscoveryConnState :=
  { c with remote_public_key := some pk, closed := true }

/-- `EthNodeDiscoveryConnection.msg_pong` (source lines 49-51). -/
def discovery_msg_pong (c : DiscoveryConnState) (pk : Nat) : DiscoveryConnState :=
  let c2 := set_remote_public_key c pk
  { c2 with pong_received := true }

/-- `EthNodeDiscoveryConnection._pong_timeout` (source lines 53-56). -/
def discovery_pong_timeout (c : DiscoveryConnState) : DiscoveryConnState :=
  if !c.pong_received then { c with marked_for_close := true } else c

/-- State touched by the conversion-outcome skeleton of
`BlockProcessingService._handle_decrypted_block` (source lines 329-440):
`transaction_service.on_block_cleaned_up` calls (modelled from the spec §7:
`MessageConversion` errors evict recovery state), recovery-record
additions, and queuing-service pushes. -/
structure DecryptedBlockHandlerState where
  tx_cleaned_up : List (List Nat)
  recovery_added : List (List Nat)
  queue_pushed : List (List Nat × Bool)
  conversion_failed_hashes : List (List Nat)
deriving Repr, DecidableEq

/-- Conversion-outcome skeleton of `_handle_decrypted_block`, for a fresh
block (hash not in `blocks_seen` or the queuing service, `recovered =
False`): a `MessageConversionError` (source lines 338-347) records the
failure and evicts the block's transaction state, then returns; a
decompressed block is pushed to the queuing service (source line 413); a
recoverable block is added to the recovery service and a
`waiting_for_recovery` placeholder is pushed (source lines 423-440). -/
def handle_decrypted_block_conversion (res : Except ConvError BxBlockResult)
    (st : DecryptedBlockHandlerState) : DecryptedBlockHandlerState :=
  match res with
  | Except.error e =>
    { st with
      conversion_failed_hashes := st.conversion_failed_hashes ++ [e.msg_hash]
      tx_cleaned_up := st.tx_cleaned_up ++ [e.msg_hash] }
  | Except.ok r =>
    match r.block_message with
    | some _ => { st with queue_pushed := st.queue_pushed ++ [(r.block_hash, false)] }
    | none =>
      { st with
        recovery_added := st.recovery_added ++ [r.block_hash]
        queue_pushed := st.queue_pushed ++ [(r.block_hash, true)] }

/-- The hypothesis of the round-trip claim for one transaction: the
transaction's hash has a non-null short id bound in the service, the sid
maps back to the hash, and the stored contents are the transaction bytes
(spec §3 invariants of the transaction entry).  The u32 bound reflects
`struct.pack` of the short id into the serialized section. -/
def sid_known_for (ts : TransactionService) (h tx : List Nat) : Prop :=
  get_short_id ts h ≠ NULL_TX_SID ∧ get_short_id ts h < 2 ^ 32 ∧
  ts.shortIdToHash.lookup (get_short_id ts h) = some h ∧
  ts.hashToContents.lookup h = some tx

instance (ts : TransactionService) (h tx : List Nat) :
    Decidable (sid_known_for ts h tx) := by
  unfold sid_known_for
  infer_instance

/-- A sid that `get_missing_transactions` will not report: it resolves to a
hash with stored contents. -/
def sid_resolvable (ts : TransactionService) (sid : Nat) : Prop :=
  missingOfSid ts sid = none

instance (ts : TransactionService) (sid : Nat) :
    Decidable (sid_resolvable ts sid) := by
  unfold sid_resolvable
  infer_instance

theorem leBytes_length (k n : Nat) : (leBytes k n).length = k := by
  induction k generalizing n with
  | zero => rfl
  | succ k ih => simp [leBytes, ih]

theorem getD_append_len {xs ys : List Nat} (i d : Nat) :
    (xs ++ ys).getD (xs.length + i) d = ys.getD i d := by
  rw [List.getD_append_right xs ys d _ (Nat.le_add_right _ _)]
  simp

theorem getD_replicate_lt {a d : Nat} {m j : Nat} (h : j < m) :
    (List.replicate m a).getD j d = a := by
  induction m generalizing j with
  | zero => omega
  | succ m ih =>
    cases j with
    | zero => rfl
    | succ j => simpa [List.replicate_succ, List.getD_cons_succ] using ih (by omega)

theorem readLE_append (k : Nat) (xs ys : List Nat) (i : Nat) :
    readLE k (xs ++ ys) (xs.length + i) = readLE k ys i := by
  induction k generalizing i with
  | zero => rfl
  | succ k ih =>
    have h1 : xs.length + i + 1 = xs.length + (i + 1) := by omega
    simp only [readLE, getD_append_len, h1, ih]

theorem readLE_sub (k : Nat) (xs ys : List Nat) (i : Nat)
    (h : i + k ≤ xs.length) : readLE k (xs ++ ys) i = readLE k xs i := by
  induction k generalizing i with
  | zero => rfl
  | succ k ih =>
    simp only [readLE]
    rw [List.getD_append xs ys 0 i (by omega), ih (i + 1) (by omega)]

theorem readLE_leBytes (k n : Nat) (rest : List Nat) :
    readLE k (leBytes k n ++ rest) 0 = n % 256 ^ k := by
  induction k generalizing n rest with
  | zero => simp [readLE, Nat.mod_one]
  | succ k ih =>
    have hcons : leBytes (k + 1) n ++ rest = [n % 256] ++ (leBytes k (n / 256) ++ rest) := by
      simp [leBytes]
    rw [hcons]
    have h1 : readLE (k + 1) ([n % 256] ++ (leBytes k (n / 256) ++ rest)) 0 =
        n % 256 + 256 * readLE k ([n % 256] ++ (leBytes k (n / 256) ++ rest)) 1 := by
      simp [readLE]
    have h2 : readLE k ([n % 256] ++ (leBytes k (n / 256) ++ rest)) 1 =
        readLE k (leBytes k (n / 256) ++ rest) 0 := by
      have := readLE_append k [n % 256] (leBytes k (n / 256) ++ rest) 0
      simpa using this
    rw [h1, h2, ih]
    have hpow : (256 : Nat) ^ (k + 1) = 256 * 256 ^ k := by ring
    rw [hpow, Nat.mod_mul]

theorem readLE_leBytes_of_lt (k n : Nat) (rest : List Nat) (h : n < 256 ^ k) :
    readLE k (leBytes k n ++ rest) 0 = n := by
  rw [readLE_leBytes, Nat.mod_eq_of_lt h]

theorem btc_varint_to_int_append (xs ys : List Nat) (i : Nat) :
    btc_varint_to_int (xs ++ ys) (xs.length + i) = btc_varint_to_int ys i := by
  have h1 : xs.length + i + 1 = xs.length + (i + 1) := by omega
  simp only [btc_varint_to_int, getD_append_len, h1, readLE_append]

theorem btc_varint_round_trip (n : Nat) (rest : List Nat) (h : n < 2 ^ 64) :
    btc_varint_to_int (btcVarint n ++ rest) 0 = (n, (btcVarint n).length) := by
  by_cases h1 : n < 253
  · simp [btcVarint, btc_varint_to_int, h1]
  · by_cases h2 : n < 2 ^ 16
    · have hb : btcVarint n = 253 :: leBytes 2 n := by
        unfold btcVarint
        rw [if_neg h1, if_pos h2]
      have hr : readLE 2 (253 :: (leBytes 2 n ++ rest)) 1 = n := by
        have hshift := readLE_append 2 [253] (leBytes 2 n ++ rest) 0
        have hval := readLE_leBytes_of_lt 2 n rest (by norm_num at h2 ⊢; omega)
        simpa [hval] using hshift
      rw [hb]
      simp only [List.cons_append]
      simp [btc_varint_to_int, hr, leBytes_length]
    · by_cases h3 : n < 2 ^ 32
      · have hb : btcVarint n = 254 :: leBytes 4 n := by
          unfold btcVarint
          rw [if_neg h1, if_neg h2, if_pos h3]
        have hr : readLE 4 (254 :: (leBytes 4 n ++ rest)) 1 = n := by
          have hshift := readLE_append 4 [254] (leBytes 4 n ++ rest) 0
          have hval := readLE_leBytes_of_lt 4 n rest (by norm_num at h3 ⊢; omega)
          simpa [hval] using hshift
        rw [hb]
        simp only [List.cons_append]
        have h253 : ¬ (254 : Nat) < 253 := by norm_num
        have hne : (254 : Nat) ≠ 253 := by norm_num
        simp [btc_varint_to_int, hr, leBytes_length]
      · have hb : btcVarint n = 255 :: leBytes 8 n := by
          unfold btcVarint
          rw [if_neg h1, if_neg h2, if_neg h3]
        have hr : readLE 8 (255 :: (leBytes 8 n ++ rest)) 1 = n := by
          have hshift := readLE_append 8 [255] (leBytes 8 n ++ rest) 0
          have hval := readLE_leBytes_of_lt 8 n rest (by norm_num at h ⊢; omega)
          simpa [hval] using hshift
        rw [hb]
        simp only [List.cons_append]
        simp [btc_varint_to_int, hr, leBytes_length]

theorem readU32List_append (xs ys : List Nat) (i c : Nat) :
    readU32List (xs ++ ys) (xs.length + i) c = readU32List ys i c := by
  induction c generalizing i with
  | zero => rfl
  | succ c ih =>
    have h4 : xs.length + i + 4 = xs.length + (i + 4) := by omega
    simp only [readU32List, readLE_append, h4, ih]

theorem readU32List_encode (sids : List Nat) (rest : List Nat)
    (h32 : ∀ s ∈ sids, s < 2 ^ 32) :
    readU32List ((sids.map (leBytes 4)).flatten ++ rest) 0 sids.length = sids := by
  induction sids generalizing rest with
  | nil => rfl
  | cons s sids ih =>
    have hs : s < 2 ^ 32 := h32 s (by simp)
    have hflat : ((s :: sids).map (leBytes 4)).flatten ++ rest =
        leBytes 4 s ++ ((sids.map (leBytes 4)).flatten ++ rest) := by
      simp
    rw [hflat]
    simp only [List.length_cons, readU32List]
    rw [readLE_leBytes_of_lt 4 s _ (by norm_num at hs ⊢; omega)]
    have hshift := readU32List_append (leBytes 4 s)
      ((sids.map (leBytes 4)).flatten ++ rest) 0 sids.length
    rw [leBytes_length] at hshift
    have h04 : (0 : Nat) + 4 = 4 + 0 := by omega
    rw [h04, hshift]
    rw [ih rest (fun x hx => h32 x (by simp [hx]))]

theorem deserialize_serialize_round_trip (pre : List Nat) (sids : List Nat)
    (h32 : ∀ s ∈ sids, s < 2 ^ 32) (hcnt : sids.length < 2 ^ 64) :
    deserialize_short_ids_from_buffer (pre ++ serialize_short_ids_into_bytes sids)
        pre.length =
      (sids, (btcVarint sids.length).length + 4 * sids.length) := by
  unfold deserialize_short_ids_from_buffer serialize_short_ids_into_bytes
  have hv : btc_varint_to_int
      (pre ++ (btcVarint sids.length ++ (sids.map (leBytes 4)).flatten)) pre.length =
      (sids.length, (btcVarint sids.length).length) := by
    have hshift := btc_varint_to_int_append pre
      (btcVarint sids.length ++ (sids.map (leBytes 4)).flatten) 0
    rw [Nat.add_zero] at hshift
    rw [hshift]
    have := btc_varint_round_trip sids.length ((sids.map (leBytes 4)).flatten) hcnt
    simpa using this
  have hassoc : pre ++ (btcVarint sids.length ++ (sids.map (leBytes 4)).flatten) =
      (pre ++ btcVarint sids.length) ++ ((sids.map (leBytes 4)).flatten ++ []) := by
    simp
  simp only [hv]
  have hread : readU32List
      (pre ++ (btcVarint sids.length ++ (sids.map (leBytes 4)).flatten))
      (pre.length + (btcVarint sids.length).length) sids.length = sids := by
    rw [hassoc]
    have hlen : (pre ++ btcVarint sids.length).length =
        pre.length + (btcVarint sids.length).length := by simp
    rw [show pre.length + (btcVarint sids.length).length =
        (pre ++ btcVarint sids.length).length + 0 from by simp [hlen]]
    rw [readU32List_append]
    exact readU32List_encode sids [] h32
  rw [hread]

theorem parse_bx_block_header_constructed (dsha : List Nat → List Nat)
    (msgH blockH body sids : List Nat) (n : Nat)
    (h24 : msgH.length = 24) (h80 : blockH.length = 80)
    (hn : n < 2 ^ 64) (h32 : ∀ s ∈ sids, s < 2 ^ 32) (hcnt : sids.length < 2 ^ 64)
    (hsio : 112 + (btcVarint n).length + body.length < 2 ^ 64) :
    parse_bx_block_header dsha
      (leBytes 8 (112 + (btcVarint n).length + body.length) ++
        (msgH ++ (blockH ++ (btcVarint n ++ (body ++ serialize_short_ids_into_bytes sids))))) =
    { short_id_offset := 112 + (btcVarint n).length + body.length
      short_ids := sids
      short_ids_len := (btcVarint sids.length).length + 4 * sids.length
      block_hash := dsha blockH
      offset := 112 + (btcVarint n).length
      txn_count := n
      header_piece := msgH ++ (blockH ++ btcVarint n) } := by
  set vlen := (btcVarint n).length with hvlen
  set sio := 112 + vlen + body.length with hsiodef
  set ser := serialize_short_ids_into_bytes sids with hserdef
  set bx := leBytes 8 sio ++ (msgH ++ (blockH ++ (btcVarint n ++ (body ++ ser)))) with hbxdef
  have hle8 : (leBytes 8 sio).length = 8 := leBytes_length 8 sio
  have hread0 : readLE 8 bx 0 = sio := by
    rw [hbxdef]
    exact readLE_leBytes_of_lt 8 sio _ (by norm_num at hsio ⊢; omega)
  have hpre : bx = (leBytes 8 sio ++ (msgH ++ (blockH ++ (btcVarint n ++ body)))) ++ ser := by
    rw [hbxdef]; simp [List.append_assoc]
  have hprelen : (leBytes 8 sio ++ (msgH ++ (blockH ++ (btcVarint n ++ body)))).length = sio := by
    simp [hle8, h24, h80, hsiodef, hvlen]; omega
  have hdeser : deserialize_short_ids_from_buffer bx sio =
      (sids, (btcVarint sids.length).length + 4 * sids.length) := by
    rw [hpre, ← hprelen, hserdef]
    exact deserialize_serialize_round_trip _ sids h32 hcnt
  have hhash : pySlice bx 32 112 = blockH := by
    have hsplit : bx = (leBytes 8 sio ++ msgH) ++ (blockH ++ (btcVarint n ++ (body ++ ser))) := by
      rw [hbxdef]; simp [List.append_assoc]
    unfold pySlice
    rw [hsplit, List.drop_left' (by simp [hle8, h24])]
    have : (112 : Nat) - 32 = 80 := by norm_num
    rw [this]
    have hsplit2 : blockH ++ (btcVarint n ++ (body ++ ser)) =
        blockH ++ (btcVarint n ++ (body ++ ser)) := rfl
    exact List.take_left' h80
  have hvarint : btc_varint_to_int bx 112 = (n, vlen) := by
    have hsplit : bx = (leBytes 8 sio ++ (msgH ++ blockH)) ++ (btcVarint n ++ (body ++ ser)) := by
      rw [hbxdef]; simp [List.append_assoc]
    have hlen112 : (leBytes 8 sio ++ (msgH ++ blockH)).length = 112 := by
      simp [hle8, h24, h80]
    rw [hsplit, show (112 : Nat) = (leBytes 8 sio ++ (msgH ++ blockH)).length + 0 from by
      rw [hlen112]]
    rw [btc_varint_to_int_append]
    have := btc_varint_round_trip n (body ++ ser) hn
    simpa [hvlen] using this
  have hpiece : pySlice bx 8 (112 + vlen) = msgH ++ (blockH ++ btcVarint n) := by
    unfold pySlice
    have hsplit : bx = leBytes 8 sio ++ ((msgH ++ (blockH ++ btcVarint n)) ++ (body ++ ser)) := by
      rw [hbxdef]; simp [List.append_assoc]
    rw [hsplit, List.drop_left' hle8]
    have hlen : (msgH ++ (blockH ++ btcVarint n)).length = 112 + vlen - 8 := by
      simp [h24, h80, hvlen]; omega
    exact List.take_left' hlen
  unfold parse_bx_block_header
  simp only [UL_ULL_SIZE_IN_BYTES, BTC_HDR_COMMON_OFF, BTC_BLOCK_HDR_SIZE, hread0,
    Nat.reduceAdd, hdeser, hvarint, hhash, hpiece]

theorem parse_loop_terminal (gnts : List Nat → Nat → Option Nat)
    (ts : TransactionService) (bh bx sids : List Nat) (sio fuel j out : Nat)
    (acc : List (List Nat)) (h : ¬ sio < sio) :
    parse_bx_block_tx_loop gnts ts bh bx sids sio fuel sio j out acc =
      Except.ok (acc, out) := by
  cases fuel with
  | zero => simp [parse_bx_block_tx_loop, h]
  | succ fuel => simp [parse_bx_block_tx_loop, h]

theorem getD_mid_replicate (pre post : List Nat) (m j d : Nat) (hj : j < m) :
    (pre ++ (List.replicate m BTC_SHORT_ID_INDICATOR ++ post)).getD
        (pre.length + j) d = BTC_SHORT_ID_INDICATOR := by
  rw [getD_append_len]
  rw [List.getD_append _ _ _ _ (by simpa using hj)]
  exact getD_replicate_lt hj

theorem parse_loop_indicator_steps (gnts : List Nat → Nat → Option Nat)
    (ts : TransactionService) (bh : List Nat) (pre post : List Nat)
    (sids : List Nat) (m : Nat) :
    ∀ (r j f out : Nat) (acc : List (List Nat)),
    j + r ≤ m → j + r ≤ sids.length →
    parse_bx_block_tx_loop gnts ts bh
        (pre ++ (List.replicate m BTC_SHORT_ID_INDICATOR ++ post)) sids
        (pre.length + m) (f + r) (pre.length + j) j out acc =
      parse_bx_block_tx_loop gnts ts bh
        (pre ++ (List.replicate m BTC_SHORT_ID_INDICATOR ++ post)) sids
        (pre.length + m) f (pre.length + (j + r)) (j + r)
        (out + (((sids.drop j).take r).map
          (fun sid => (get_transaction ts sid).2.length)).sum)
        (acc ++ ((sids.drop j).take r).map (fun sid => (get_transaction ts sid).2)) := by
  intro r
  induction r with
  | zero =>
    intro j f out acc _ _
    simp
  | succ r ih =>
    intro j f out acc hm hs
    have hjm : j < m := by omega
    have hjs : j < sids.length := by omega
    have hoff : pre.length + j < pre.length + m := by omega
    have hstep : parse_bx_block_tx_loop gnts ts bh
        (pre ++ (List.replicate m BTC_SHORT_ID_INDICATOR ++ post)) sids
        (pre.length + m) (f + r + 1) (pre.length + j) j out acc =
      parse_bx_block_tx_loop gnts ts bh
        (pre ++ (List.replicate m BTC_SHORT_ID_INDICATOR ++ post)) sids
        (pre.length + m) (f + r) (pre.length + j + 1) (j + 1)
        (out + (get_transaction ts (sids.get ⟨j, hjs⟩)).2.length)
        (acc ++ [(get_transaction ts (sids.get ⟨j, hjs⟩)).2]) := by
      rw [parse_bx_block_tx_loop]
      rw [if_pos hoff]
      rw [getD_mid_replicate pre post m j 0 hjm]
      rw [if_pos rfl]
      have hget : sids[j]? = some (sids.get ⟨j, hjs⟩) := by
        rw [List.getElem?_eq_getElem hjs]
        simp
      rw [hget]
    have hrw1 : f + (r + 1) = f + r + 1 := by omega
    rw [hrw1, hstep]
    have hoff1 : pre.length + j + 1 = pre.length + (j + 1) := by omega
    rw [hoff1]
    rw [ih (j + 1) f _ _ (by omega) (by omega)]
    have hdecomp : (sids.drop j).take (r + 1) =
        sids.get ⟨j, hjs⟩ :: (sids.drop (j + 1)).take r := by
      rw [List.drop_eq_getElem_cons hjs, List.take_succ_cons]
      rfl
    rw [hdecomp]
    have hj1 : j + 1 + r = j + (r + 1) := by omega
    simp [hj1, List.append_assoc, Nat.add_assoc, Nat.add_comm, Nat.add_left_comm]

theorem parse_loop_all_indicators_ok (gnts : List Nat → Nat → Option Nat)
    (ts : TransactionService) (bh : List Nat) (pre post : List Nat)
    (sids : List Nat) :
    parse_bx_block_tx_loop gnts ts bh
        (pre ++ (List.replicate sids.length BTC_SHORT_ID_INDICATOR ++ post)) sids
        (pre.length + sids.length) (pre.length + sids.length) pre.length 0
        pre.length [] =
      Except.ok (sids.map (fun sid => (get_transaction ts sid).2),
        pre.length + (sids.map (fun sid => (get_transaction ts sid).2.length)).sum) := by
  have hsteps := parse_loop_indicator_steps gnts ts bh pre post sids sids.length
    sids.length 0 pre.length pre.length [] (by omega) (by omega)
  rw [show pre.length + 0 = pre.length from by omega] at hsteps
  rw [hsteps]
  rw [show (0 : Nat) + sids.length = sids.length from by omega]
  rw [List.drop_zero, List.take_length]
  exact parse_loop_terminal gnts ts bh _ sids _ _ _ _ _ (by omega)

theorem parse_loop_indicator_overflow (gnts : List Nat → Nat → Option Nat)
    (ts : TransactionService) (bh : List Nat) (pre post : List Nat)
    (sids : List Nat) :
    parse_bx_block_tx_loop gnts ts bh
        (pre ++ (List.replicate (sids.length + 1) BTC_SHORT_ID_INDICATOR ++ post))
        sids (pre.length + (sids.length + 1)) (pre.length + (sids.length + 1))
        pre.length 0 pre.length [] =
      Except.error (ConvError.decompression bh) := by
  have hsteps := parse_loop_indicator_steps gnts ts bh pre post sids (sids.length + 1)
    sids.length 0 (pre.length + 1) pre.length [] (by omega) (by omega)
  rw [show pre.length + 0 = pre.length from by omega] at hsteps
  rw [show pre.length + 1 + sids.length = pre.length + (sids.length + 1) from by omega]
    at hsteps
  rw [show (0 : Nat) + sids.length = sids.length from by omega] at hsteps
  rw [hsteps]
  rw [parse_bx_block_tx_loop]
  rw [if_pos (by omega : pre.length + sids.length < pre.length + (sids.length + 1))]
  have hgd : (pre ++ (List.replicate (sids.length + 1) BTC_SHORT_ID_INDICATOR ++ post)).getD
      (pre.length + sids.length) 0 = BTC_SHORT_ID_INDICATOR :=
    getD_mid_replicate pre post (sids.length + 1) sids.length 0 (by omega)
  rw [hgd, if_pos rfl]
  rw [List.getElem?_eq_none (Nat.le_refl _)]

theorem get_missing_transactions_none (ts : TransactionService) (sids : List Nat)
    (h : ∀ sid ∈ sids, missingOfSid ts sid = none) :
    get_missing_transactions ts sids = (false, [], []) := by
  unfold get_missing_transactions
  have h1 : sids.filterMap (fun sid =>
      match missingOfSid ts sid with
      | some (Sum.inl s) => some s
      | _ => none) = [] := by
    rw [List.filterMap_eq_nil]
    intro a ha
    rw [h a ha]
  have h2 : sids.filterMap (fun sid =>
      match missingOfSid ts sid with
      | some (Sum.inr hh) => some hh
      | _ => none) = ([] : List (List Nat)) := by
    rw [List.filterMap_eq_nil]
    intro a ha
    rw [h a ha]
  simp only [h1, h2]
  rfl

theorem flatten_map_singleton {α β : Type} (l : List α) (a : β) :
    (l.map (fun _ => [a])).flatten = List.replicate l.length a := by
  induction l with
  | nil => rfl
  | cons x xs ih => simp [ih, List.replicate_succ]

theorem bxBlockPiece_all_known (getTxid : List Nat → List Nat)
    (ts : TransactionService) (txns : List (List Nat))
    (hknown : ∀ tx ∈ txns, sid_known_for ts (getTxid tx) tx) :
    (txns.map (bxBlockPiece getTxid ts)).flatten =
      List.replicate txns.length BTC_SHORT_ID_INDICATOR := by
  have hmap : txns.map (bxBlockPiece getTxid ts) =
      txns.map (fun _ => [BTC_SHORT_ID_INDICATOR]) := by
    apply List.map_congr_left
    intro tx htx
    unfold bxBlockPiece
    rw [if_neg (hknown tx htx).1]
  rw [hmap, flatten_map_singleton]

theorem bxBlockShortIds_all_known (getTxid : List Nat → List Nat)
    (ts : TransactionService) (txns : List (List Nat))
    (hknown : ∀ tx ∈ txns, sid_known_for ts (getTxid tx) tx) :
    bxBlockShortIds getTxid ts txns =
      txns.map (fun tx => get_short_id ts (getTxid tx)) := by
  induction txns with
  | nil => rfl
  | cons tx txns ih =>
    unfold bxBlockShortIds
    simp only [List.filterMap_cons]
    rw [if_neg (hknown tx (by simp)).1]
    simp only [List.map_cons]
    rw [← ih (fun x hx => hknown x (by simp [hx]))]
    rfl

theorem get_transaction_of_known (getTxid : List Nat → List Nat)
    (ts : TransactionService) (tx : List Nat)
    (hk : sid_known_for ts (getTxid tx) tx) :
    get_transaction ts (get_short_id ts (getTxid tx)) = (getTxid tx, tx) := by
  unfold get_transaction
  simp only [hk.2.2.1, hk.2.2.2, Option.getD_some]

theorem missingOfSid_of_known (getTxid : List Nat → List Nat)
    (ts : TransactionService) (tx : List Nat)
    (hk : sid_known_for ts (getTxid tx) tx) :
    missingOfSid ts (get_short_id ts (getTxid tx)) = none := by
  unfold missingOfSid
  simp only [hk.2.2.1, hk.2.2.2]

theorem contents_of_known_sids (getTxid : List Nat → List Nat)
    (ts : TransactionService) (txns : List (List Nat))
    (hknown : ∀ tx ∈ txns, sid_known_for ts (getTxid tx) tx) :
    (txns.map (fun tx => get_short_id ts (getTxid tx))).map
        (fun sid => (get_transaction ts sid).2) = txns := by
  rw [List.map_map]
  have : ∀ tx ∈ txns,
      ((fun sid => (get_transaction ts sid).2) ∘ fun tx => get_short_id ts (getTxid tx)) tx
        = id tx := by
    intro tx htx
    have := get_transaction_of_known getTxid ts tx (hknown tx htx)
    simp [this]
  rw [List.map_congr_left this, List.map_id]

/-- C1: for every Bitcoin block whose every transaction has a known short id
(with consistent contents) in the transaction service, decompressing the
compression is the identity: the reconstructed block message is
byte-for-byte equal to the original (the reconstruction buffer keeps the 8
spare bytes of `bytearray(size)`, trimmed by the message's declared payload
length), with empty `unknown_sids` and `unknown_hashes`. -/
theorem bx_block_round_trip_identity
    (dsha getTxid : List Nat → List Nat) (gnts : List Nat → Nat → Option Nat)
    (ts : TransactionService) (B : BlockBtcMessage)
    (h24 : B.msgHeader.length = 24) (h80 : B.blockHeader.length = 80)
    (hpl : BTC_HDR_COMMON_OFF + readLE 4 B.msgHeader 16 = B.rawbytes.length)
    (hknown : ∀ tx ∈ B.txns, sid_known_for ts (getTxid tx) tx)
    (hsz : UL_ULL_SIZE_IN_BYTES + B.header.length + B.txns.length < 2 ^ 64) :
    bx_block_to_block dsha gnts (block_to_bx_block getTxid ts B).1 ts =
      Except.ok
        { block_message := some (B.rawbytes ++ List.replicate 8 0)
          block_hash := dsha B.blockHeader
          short_ids := (block_to_bx_block getTxid ts B).2
          unknown_sids := []
          unknown_hashes := [] }
    ∧ rawbytesOfBuf (B.rawbytes ++ List.replicate 8 0) = B.rawbytes := by
  have hn64 : B.txns.length < 2 ^ 64 := by
    have : UL_ULL_SIZE_IN_BYTES = 8 := rfl
    omega
  have hhdrlen : B.header.length = 104 + (btcVarint B.txns.length).length := by
    simp [BlockBtcMessage.header, h24, h80]
    omega
  have hsio64 : 112 + (btcVarint B.txns.length).length + B.txns.length < 2 ^ 64 := by
    have h8 : UL_ULL_SIZE_IN_BYTES = 8 := rfl
    omega
  have hgs : bxBlockShortIds getTxid ts B.txns =
      B.txns.map (fun tx => get_short_id ts (getTxid tx)) :=
    bxBlockShortIds_all_known getTxid ts B.txns hknown
  have hgslen : (B.txns.map (fun tx => get_short_id ts (getTxid tx))).length =
      B.txns.length := by simp
  have h32 : ∀ s ∈ B.txns.map (fun tx => get_short_id ts (getTxid tx)), s < 2 ^ 32 := by
    intro s hs
    rw [List.mem_map] at hs
    obtain ⟨tx, htx, rfl⟩ := hs
    exact (hknown tx htx).2.1
  have hmiss : ∀ s ∈ B.txns.map (fun tx => get_short_id ts (getTxid tx)),
      missingOfSid ts s = none := by
    intro s hs
    rw [List.mem_map] at hs
    obtain ⟨tx, htx, rfl⟩ := hs
    exact missingOfSid_of_known getTxid ts tx (hknown tx htx)
  have hbody : (B.txns.map (bxBlockPiece getTxid ts)).flatten =
      List.replicate B.txns.length BTC_SHORT_ID_INDICATOR :=
    bxBlockPiece_all_known getTxid ts B.txns hknown
  have hbx : (block_to_bx_block getTxid ts B).1 =
      leBytes 8 (112 + (btcVarint B.txns.length).length + B.txns.length) ++
        (B.msgHeader ++ (B.blockHeader ++ (btcVarint B.txns.length ++
          (List.replicate B.txns.length BTC_SHORT_ID_INDICATOR ++
            serialize_short_ids_into_bytes
              (B.txns.map (fun tx => get_short_id ts (getTxid tx))))))) := by
    unfold block_to_bx_block
    simp only [hbody, hgs]
    have hsize : B.header.length +
        (List.replicate B.txns.length BTC_SHORT_ID_INDICATOR).length +
        UL_ULL_SIZE_IN_BYTES =
        112 + (btcVarint B.txns.length).length + B.txns.length := by
      rw [List.length_replicate, hhdrlen,
        show UL_ULL_SIZE_IN_BYTES = 8 from rfl]
      omega
    rw [hsize]
    simp [BlockBtcMessage.header, List.append_assoc]
  have hsnd : (block_to_bx_block getTxid ts B).2 =
      B.txns.map (fun tx => get_short_id ts (getTxid tx)) := by
    unfold block_to_bx_block
    simpa using hgs
  have hparse := parse_bx_block_header_constructed dsha B.msgHeader B.blockHeader
    (List.replicate B.txns.length BTC_SHORT_ID_INDICATOR)
    (B.txns.map (fun tx => get_short_id ts (getTxid tx))) B.txns.length
    h24 h80 hn64 h32 (by rw [hgslen]; exact hn64)
    (by rw [List.length_replicate]; exact hsio64)
  rw [List.length_replicate] at hparse
  have hcontents : (B.txns.map (fun tx => get_short_id ts (getTxid tx))).map
      (fun sid => (get_transaction ts sid).2) = B.txns :=
    contents_of_known_sids getTxid ts B.txns hknown
  have hsum : (B.txns.map (fun tx => get_short_id ts (getTxid tx))).map
      (fun sid => (get_transaction ts sid).2.length) = B.txns.map List.length := by
    rw [List.map_map]
    apply List.map_congr_left
    intro tx htx
    simp [Function.comp, get_transaction_of_known getTxid ts tx (hknown tx htx)]
  have hloopok := parse_loop_all_indicators_ok gnts ts (dsha B.blockHeader)
    (leBytes 8 (112 + (btcVarint B.txns.length).length + B.txns.length) ++
      (B.msgHeader ++ (B.blockHeader ++ btcVarint B.txns.length)))
    (serialize_short_ids_into_bytes
      (B.txns.map (fun tx => get_short_id ts (getTxid tx))))
    (B.txns.map (fun tx => get_short_id ts (getTxid tx)))
  have hprelen : (leBytes 8 (112 + (btcVarint B.txns.length).length + B.txns.length) ++
      (B.msgHeader ++ (B.blockHeader ++ btcVarint B.txns.length))).length =
      112 + (btcVarint B.txns.length).length := by
    simp [leBytes_length, h24, h80]
    omega
  rw [hgslen, hprelen, hcontents, hsum] at hloopok
  have hbufsplit : leBytes 8 (112 + (btcVarint B.txns.length).length + B.txns.length) ++
      (B.msgHeader ++ (B.blockHeader ++ (btcVarint B.txns.length ++
        (List.replicate B.txns.length BTC_SHORT_ID_INDICATOR ++
          serialize_short_ids_into_bytes
            (B.txns.map (fun tx => get_short_id ts (getTxid tx))))))) =
      (leBytes 8 (112 + (btcVarint B.txns.length).length + B.txns.length) ++
        (B.msgHeader ++ (B.blockHeader ++ btcVarint B.txns.length))) ++
        (List.replicate B.txns.length BTC_SHORT_ID_INDICATOR ++
          serialize_short_ids_into_bytes
            (B.txns.map (fun tx => get_short_id ts (getTxid tx)))) := by
    simp [List.append_assoc]
  have htxparse : parse_bx_block_transactions gnts ts (dsha B.blockHeader)
      (leBytes 8 (112 + (btcVarint B.txns.length).length + B.txns.length) ++
        (B.msgHeader ++ (B.blockHeader ++ (btcVarint B.txns.length ++
          (List.replicate B.txns.length BTC_SHORT_ID_INDICATOR ++
            serialize_short_ids_into_bytes
              (B.txns.map (fun tx => get_short_id ts (getTxid tx))))))))
      (112 + (btcVarint B.txns.length).length)
      (B.txns.map (fun tx => get_short_id ts (getTxid tx)))
      (112 + (btcVarint B.txns.length).length + B.txns.length) =
      Except.ok ([], [], B.txns,
        112 + (btcVarint B.txns.length).length + (B.txns.map List.length).sum) := by
    unfold parse_bx_block_transactions
    rw [get_missing_transactions_none ts _ hmiss]
    simp only [Bool.false_eq_true, if_false]
    rw [hbufsplit, hloopok]
  have hrawfl : ((B.msgHeader ++ (B.blockHeader ++ btcVarint B.txns.length)) ::
      B.txns).flatten = B.rawbytes := by
    simp [BlockBtcMessage.rawbytes, BlockBtcMessage.header, List.append_assoc]
  have hrawlen : B.rawbytes.length =
      104 + (btcVarint B.txns.length).length + (B.txns.map List.length).sum := by
    simp [BlockBtcMessage.rawbytes, List.length_flatten, hhdrlen]
  constructor
  · rw [hbx]
    unfold bx_block_to_block
    rw [hparse]
    simp only []
    rw [htxparse]
    simp only [List.isEmpty_nil, Bool.and_self, if_true]
    unfold build_btc_block
    rw [hrawfl]
    have hpad : 112 + (btcVarint B.txns.length).length + (B.txns.map List.length).sum -
        B.rawbytes.length = 8 := by omega
    simp [hpad, hsnd]
  · unfold rawbytesOfBuf pySlice
    have hsplitmsg : B.rawbytes ++ List.replicate 8 0 =
        B.msgHeader ++ ((B.blockHeader ++ btcVarint B.txns.length ++ B.txns.flatten) ++
          List.replicate 8 0) := by
      simp [BlockBtcMessage.rawbytes, BlockBtcMessage.header, List.append_assoc]
    rw [hsplitmsg]
    rw [readLE_sub 4 B.msgHeader _ 16 (by omega)]
    rw [← hsplitmsg]
    have hlen24 : BTC_HDR_COMMON_OFF + readLE 4 B.msgHeader 16 - 0 =
        B.rawbytes.length := by
      rw [Nat.sub_zero]
      exact hpl
    rw [List.drop_zero, hlen24]
    exact List.take_left' rfl

/-- Witness for the round-trip theorem: a concrete two-transaction block
with both sids known round-trips exactly. -/
theorem bx_block_round_trip_identity_witness :
    let ts : TransactionService :=
      ⟨[(7, [170]), (9, [171])], [([170], 7), ([171], 9)],
        [([170], [1, 2, 3]), ([171], [4, 5])]⟩
    let B : BlockBtcMessage :=
      ⟨List.replicate 16 9 ++ [86, 0, 0, 0] ++ [5, 6, 7, 8],
        List.replicate 80 2, [[1, 2, 3], [4, 5]]⟩
    let gT : List Nat → List Nat := fun tx =>
      if tx = [1, 2, 3] then [170] else if tx = [4, 5] then [171] else [0]
    bx_block_to_block (fun x => x) (fun _ _ => none)
        (block_to_bx_block gT ts B).1 ts =
      Except.ok
        { block_message := some (B.rawbytes ++ List.replicate 8 0)
          block_hash := B.blockHeader
          short_ids := (block_to_bx_block gT ts B).2
          unknown_sids := []
          unknown_hashes := [] }
    ∧ rawbytesOfBuf (B.rawbytes ++ List.replicate 8 0) = B.rawbytes := by
  intro ts B gT
  exact bx_block_round_trip_identity (fun x => x) gT (fun _ _ => none) ts B
    (by decide) (by decide) (by decide) (by decide) (by decide)

/-- C7: a bx-block whose body contains one more `SHORT_ID_INDICATOR` byte
than there are parsed short ids makes `bx_block_to_block` raise a hard
decompression failure carrying the parsed block hash (not a recoverable
result), and the catching caller (`_handle_decrypted_block`) evicts the
block's transaction state without creating a recovery record or queuing
entry. -/
theorem bx_block_short_id_index_overflow
    (dsha : List Nat → List Nat) (gnts : List Nat → Nat → Option Nat)
    (ts : TransactionService) (msgH blockH : List Nat) (sids : List Nat) (n : Nat)
    (h24 : msgH.length = 24) (h80 : blockH.length = 80)
    (hn : n < 2 ^ 64) (h32 : ∀ s ∈ sids, s < 2 ^ 32) (hcnt : sids.length < 2 ^ 64)
    (hmiss : ∀ s ∈ sids, missingOfSid ts s = none)
    (hsio : 112 + (btcVarint n).length + (sids.length + 1) < 2 ^ 64) :
    bx_block_to_block dsha gnts
        (leBytes 8 (112 + (btcVarint n).length + (sids.length + 1)) ++
          (msgH ++ (blockH ++ (btcVarint n ++
            (List.replicate (sids.length + 1) BTC_SHORT_ID_INDICATOR ++
              serialize_short_ids_into_bytes sids))))) ts =
      Except.error (ConvError.decompression (dsha blockH))
    ∧ ∀ (st : DecryptedBlockHandlerState) (e : ConvError),
        handle_decrypted_block_conversion (Except.error e) st =
          { st with
            conversion_failed_hashes := st.conversion_failed_hashes ++ [e.msg_hash]
            tx_cleaned_up := st.tx_cleaned_up ++ [e.msg_hash] } := by
  constructor
  · have hparse := parse_bx_block_header_constructed dsha msgH blockH
      (List.replicate (sids.length + 1) BTC_SHORT_ID_INDICATOR) sids n
      h24 h80 hn h32 hcnt (by rw [List.length_replicate]; exact hsio)
    rw [List.length_replicate] at hparse
    have hprelen : (leBytes 8 (112 + (btcVarint n).length + (sids.length + 1)) ++
        (msgH ++ (blockH ++ btcVarint n))).length = 112 + (btcVarint n).length := by
      simp [leBytes_length, h24, h80]
      omega
    have hloop := parse_loop_indicator_overflow gnts ts (dsha blockH)
      (leBytes 8 (112 + (btcVarint n).length + (sids.length + 1)) ++
        (msgH ++ (blockH ++ btcVarint n)))
      (serialize_short_ids_into_bytes sids) sids
    rw [hprelen] at hloop
    have hbufsplit : leBytes 8 (112 + (btcVarint n).length + (sids.length + 1)) ++
        (msgH ++ (blockH ++ (btcVarint n ++
          (List.replicate (sids.length + 1) BTC_SHORT_ID_INDICATOR ++
            serialize_short_ids_into_bytes sids)))) =
        (leBytes 8 (112 + (btcVarint n).length + (sids.length + 1)) ++
          (msgH ++ (blockH ++ btcVarint n))) ++
          (List.replicate (sids.length + 1) BTC_SHORT_ID_INDICATOR ++
            serialize_short_ids_into_bytes sids) := by
      simp [List.append_assoc]
    have htxerr : parse_bx_block_transactions gnts ts (dsha blockH)
        (leBytes 8 (112 + (btcVarint n).length + (sids.length + 1)) ++
          (msgH ++ (blockH ++ (btcVarint n ++
            (List.replicate (sids.length + 1) BTC_SHORT_ID_INDICATOR ++
              serialize_short_ids_into_bytes sids)))))
        (112 + (btcVarint n).length) sids
        (112 + (btcVarint n).length + (sids.length + 1)) =
        Except.error (ConvError.decompression (dsha blockH)) := by
      unfold parse_bx_block_transactions
      rw [get_missing_transactions_none ts sids hmiss]
      simp only [Bool.false_eq_true, if_false]
      rw [hbufsplit, hloop]
    unfold bx_block_to_block
    rw [hparse]
    simp only []
    rw [htxerr]
  · intro st e
    rfl

/-- Witness for the short-id index-overflow theorem: one resolvable short id
but two indicator bytes in the body. -/
theorem bx_block_short_id_index_overflow_witness :
    bx_block_to_block (fun x => x) (fun _ _ => none)
        (leBytes 8 (112 + (btcVarint 2).length + ([7].length + 1)) ++
          (List.replicate 24 0 ++ (List.replicate 80 1 ++ (btcVarint 2 ++
            (List.replicate ([7].length + 1) BTC_SHORT_ID_INDICATOR ++
              serialize_short_ids_into_bytes [7])))))
        ⟨[(7, [170]), (9, [171])], [([170], 7), ([171], 9)],
          [([170], [1, 2, 3]), ([171], [4, 5])]⟩ =
      Except.error (ConvError.decompression (List.replicate 80 1))
    ∧ handle_decrypted_block_conversion
        (Except.error (ConvError.decompression (List.replicate 80 1)))
        ⟨[], [], [], []⟩ =
      ⟨[List.replicate 80 1], [], [], [List.replicate 80 1]⟩ := by
  have h := bx_block_short_id_index_overflow (fun x => x) (fun _ _ => none)
    ⟨[(7, [170]), (9, [171])], [([170], 7), ([171], 9)],
      [([170], [1, 2, 3]), ([171], [4, 5])]⟩
    (List.replicate 24 0) (List.replicate 80 1) [7] 2
    (by decide) (by decide) (by decide) (by decide) (by decide) (by decide) (by decide)
  exact ⟨h.1, h.2 ⟨[], [], [], []⟩ (ConvError.decompression (List.replicate 80 1))⟩

theorem lookup_append {α : Type} (k : Nat) (l1 l2 : List (Nat × α)) :
    (l1 ++ l2).lookup k = (l1.lookup k).or (l2.lookup k) := by
  induction l1 with
  | nil => simp [List.lookup]
  | cons p l1 ih =>
    by_cases hk : k = p.1
    · simp [List.lookup, hk]
    · have hbeq : (k == p.1) = false := by simp [hk]
      simp [List.lookup, hbeq, ih]

theorem lookup_eraseA_self {α : Type} (k : Nat) (m : List (Nat × α)) :
    (eraseA k m).lookup k = none := by
  induction m with
  | nil => rfl
  | cons p m ih =>
    unfold eraseA at ih ⊢
    by_cases hk : p.1 = k
    · simp only [List.filter_cons, hk, bne_self_eq_false]
      exact ih
    · have hbne : (p.1 != k) = true := by simp [hk]
      simp only [List.filter_cons, hbne, if_true]
      have hbeq : (k == p.1) = false := by simp [Ne.symm hk]
      simp [List.lookup, hbeq, ih]

theorem lookup_updateA_self {α : Type} (k : Nat) (v : α) (m : List (Nat × α))
    (h : (m.lookup k).isSome) : (updateA k v m).lookup k = some v := by
  induction m with
  | nil => simp [List.lookup] at h
  | cons p m ih =>
    unfold updateA
    by_cases hk : p.1 = k
    · rw [if_pos hk]
      simp [List.lookup]
    · rw [if_neg hk]
      have hbeq : (k == p.1) = false := by simp [Ne.symm hk]
      simp only [List.lookup, hbeq] at h ⊢
      exact ih h

theorem lookup_upsertA_self {α : Type} (k : Nat) (v : α) (m : List (Nat × α)) :
    (upsertA k v m).lookup k = some v := by
  unfold upsertA
  cases hm : m.lookup k with
  | none =>
    rw [lookup_append]
    simp [hm, List.lookup]
  | some w =>
    exact lookup_updateA_self k v m (by simp [hm])

/-- C9: for every block hash already present in the node's `blocks_seen`
cache, `place_hold` leaves the whole state unchanged: no hold entry is
created and no `BlockHoldingMessage` is broadcast. -/
theorem place_hold_seen_block_noop (st : GatewayState) (block_hash conn : Nat)
    (now : ℚ) (hseen : block_hash ∈ st.blocks_seen) :
    place_hold st block_hash conn now = st := by
  unfold place_hold
  rw [if_pos hseen]

/-- Witness for `place_hold_seen_block_noop` at a concrete seen hash. -/
theorem place_hold_seen_block_noop_witness :
    place_hold { initGatewayState with blocks_seen := [5] } 5 1 0 =
      { initGatewayState with blocks_seen := [5] } :=
  place_hold_seen_block_noop { initGatewayState with blocks_seen := [5] } 5 1 0
    (by decide)

/-- C10: when the block hash of a key message already has an encryption key
stored in `in_progress_blocks`, `process_block_key` returns immediately:
the state (keys, ciphertexts, events) is unchanged, so no decryption is
attempted and the key message is not forwarded to gateway peers. -/
theorem process_block_key_known_key_noop (decrypt : Nat → Nat → Option Nat)
    (st : GatewayState) (msg : KeyMsgS) (conn : Nat)
    (hknown : (st.in_progress_keys.lookup msg.block_hash).isSome) :
    process_block_key decrypt st msg conn = st := by
  unfold process_block_key
  rw [if_pos hknown]

/-- Witness for `process_block_key_known_key_noop` with a stored key. -/
theorem process_block_key_known_key_noop_witness :
    process_block_key (fun _ _ => none)
        { initGatewayState with in_progress_keys := [(3, 9)] } ⟨3, 7⟩ 1 =
      { initGatewayState with in_progress_keys := [(3, 9)] } :=
  process_block_key_known_key_noop (fun _ _ => none)
    { initGatewayState with in_progress_keys := [(3, 9)] } ⟨3, 7⟩ 1 (by decide)

/-- C5: in the relay tx-message handler, a message with no short id whose
hash already has both a short id and contents in the transaction service
only increments the duplicate counter: no short id is assigned, no contents
are stored, and nothing is forwarded to the blockchain node. -/
theorem msg_tx_duplicate_ignored (st : RelayTxState) (tx_hash : Nat)
    (tx_val : Option Nat) (hsid : tx_hash ∈ st.hash_has_short_id)
    (hcontents : (st.tx_contents.lookup tx_hash).isSome) :
    msg_tx st 0 tx_hash tx_val =
      { st with duplicate_from_relay := st.duplicate_from_relay + 1 } := by
  unfold msg_tx
  rw [if_pos ⟨rfl, hsid, hcontents⟩]

/-- Witness for `msg_tx_duplicate_ignored` at a concrete known
transaction. -/
theorem msg_tx_duplicate_ignored_witness :
    msg_tx ⟨[4], [(4, 11)], [(4, 2)], 0, 0, [4], [], [], 0, true⟩ 0 4 (some 11) =
      ⟨[4], [(4, 11)], [(4, 2)], 1, 0, [4], [], [], 0, true⟩ :=
  msg_tx_duplicate_ignored ⟨[4], [(4, 11)], [(4, 2)], 0, 0, [4], [], [], 0, true⟩
    4 (some 11) (by decide) (by decide)

/-- C8: the Ethereum discovery connection sends a signed ping at
construction and arms the discovery-pong-timeout alarm; a received pong
records the remote public key and the connection is closed; if the timeout
fires with no pong received, the connection is marked for close
(discovery timeout), while after a pong the timeout callback does
nothing. -/
theorem discovery_connection_lifecycle :
    eth_node_discovery_connection_init.pings_sent = 1
    ∧ eth_node_discovery_connection_init.pong_alarm_delay =
        some DISCOVERY_PONG_TIMEOUT_SEC
    ∧ (∀ pk : Nat,
        (discovery_msg_pong eth_node_discovery_connection_init pk).remote_public_key
            = some pk
        ∧ (discovery_msg_pong eth_node_discovery_connection_init pk).closed = true
        ∧ discovery_pong_timeout (discovery_msg_pong eth_node_discovery_connection_init pk)
            = discovery_msg_pong eth_node_discovery_connection_init pk)
    ∧ (discovery_pong_timeout eth_node_discovery_connection_init).marked_for_close
        = true := by
  refine ⟨rfl, rfl, fun pk => ⟨rfl, rfl, ?_⟩, rfl⟩
  rfl

theorem place_hold_alarms (s : GatewayState) (bh conn : Nat) (now : ℚ) :
    (place_hold s bh conn now).alarms = s.alarms := by
  unfold place_hold
  split
  · rfl
  · split
    · rfl
    · rfl

theorem place_hold_unregistered (s : GatewayState) (bh conn : Nat) (now : ℚ) :
    (place_hold s bh conn now).unregistered_alarms = s.unregistered_alarms := by
  unfold place_hold
  split
  · rfl
  · split
    · rfl
    · rfl

theorem place_hold_events (s : GatewayState) (bh conn : Nat) (now : ℚ) :
    (place_hold s bh conn now).events = s.events ∨
      (place_hold s bh conn now).events = s.events ++
        [GwEvent.broadcastBlockHolding bh false
          [ConnType.RELAY_BLOCK, ConnType.GATEWAY]] := by
  unfold place_hold
  split
  · exact Or.inl rfl
  · split
    · exact Or.inl rfl
    · exact Or.inr rfl

theorem place_hold_holds_lookup (s : GatewayState) (bh conn : Nat) (now : ℚ)
    (k : Nat) (hold : BlockHoldS)
    (h : ((place_hold s bh conn now).holds).lookup k = some hold) :
    s.holds.lookup k = some hold ∨ hold.alarm = none := by
  unfold place_hold at h
  split at h
  · exact Or.inl h
  · split at h
    · exact Or.inl h
    · rw [lookup_append] at h
      cases hl : s.holds.lookup k with
      | some w =>
        rw [hl] at h
        simp only [Option.or] at h
        exact Or.inl h
      | none =>
        rw [hl] at h
        simp only [Option.none_or] at h
        by_cases hk : k = bh
        · subst hk
          simp only [List.lookup, beq_self_eq_true] at h
          rw [Option.some_inj] at h
          right
          rw [← h]
        · have hbeq : (k == bh) = false := by simp [hk]
          simp [List.lookup, hbeq] at h

theorem fold_place_hold_inv (bh : Nat) (calls : List (Nat × ℚ)) :
    ∀ (st : GatewayState),
    (calls.foldl (fun s p => place_hold s bh p.1 p.2) st).alarms = st.alarms
    ∧ (calls.foldl (fun s p => place_hold s bh p.1 p.2) st).unregistered_alarms =
        st.unregistered_alarms
    ∧ (∀ e ∈ (calls.foldl (fun s p => place_hold s bh p.1 p.2) st).events,
        e ∈ st.events ∨ ∃ bh2 pq ct, e = GwEvent.broadcastBlockHolding bh2 pq ct)
    ∧ (∀ hold, ((calls.foldl (fun s p => place_hold s bh p.1 p.2) st).holds).lookup bh
          = some hold →
        st.holds.lookup bh = some hold ∨ hold.alarm = none) := by
  induction calls with
  | nil =>
    intro st
    exact ⟨rfl, rfl, fun e he => Or.inl he, fun hold hh => Or.inl hh⟩
  | cons p calls ih =>
    intro st
    obtain ⟨ha, hu, he, hh⟩ := ih (place_hold st bh p.1 p.2)
    refine ⟨?_, ?_, ?_, ?_⟩
    · rw [List.foldl_cons, ha, place_hold_alarms]
    · rw [List.foldl_cons, hu, place_hold_unregistered]
    · intro e hmem
      rw [List.foldl_cons] at hmem
      rcases he e hmem with h1 | h2
      · rcases place_hold_events st bh p.1 p.2 with hev | hev
        · rw [hev] at h1
          exact Or.inl h1
        · rw [hev, List.mem_append] at h1
          rcases h1 with h1a | h1b
          · exact Or.inl h1a
          · simp at h1b
            exact Or.inr ⟨bh, false, [ConnType.RELAY_BLOCK, ConnType.GATEWAY], h1b⟩
      · exact Or.inr h2
    · intro hold hlook
      rw [List.foldl_cons] at hlook
      rcases hh hold hlook with h1 | h2
      · exact place_hold_holds_lookup st bh p.1 p.2 bh hold h1
      · exact Or.inr h2

theorem cancel_hold_timeout_lookup_none (s : GatewayState) (bh c : Nat) :
    ((cancel_hold_timeout s bh c).holds).lookup bh = none := by
  unfold cancel_hold_timeout
  cases hl : s.holds.lookup bh with
  | none => exact hl
  | some hold => exact lookup_eraseA_self bh s.holds

theorem cancel_hold_timeout_alarms (s : GatewayState) (bh c : Nat) :
    (cancel_hold_timeout s bh c).alarms = s.alarms := by
  unfold cancel_hold_timeout
  cases s.holds.lookup bh <;> rfl

theorem cancel_hold_timeout_events (s : GatewayState) (bh c : Nat) :
    (cancel_hold_timeout s bh c).events = s.events := by
  unfold cancel_hold_timeout
  cases s.holds.lookup bh <;> rfl

theorem cancel_hold_timeout_unregisters (s : GatewayState) (bh c : Nat)
    (hold : BlockHoldS) (a : Nat) (hl : s.holds.lookup bh = some hold)
    (ha : hold.alarm = some a) :
    a ∈ (cancel_hold_timeout s bh c).unregistered_alarms := by
  unfold cancel_hold_timeout
  rw [hl]
  simp only [ha]
  simp

theorem cancel_hold_timeout_of_absent (s : GatewayState) (bh c : Nat)
    (h : s.holds.lookup bh = none) : cancel_hold_timeout s bh c = s := by
  unfold cancel_hold_timeout
  rw [h]

/-- C4: after any sequence of `place_hold` calls for hash `h` followed by
`cancel_hold_timeout h c`, the holds map has no entry for `h`; any
hold-timeout alarm recorded on the cancelled hold is unregistered; no alarm
was ever registered by the sequence; the only events produced are
`BlockHoldingMessage` broadcasts (so the locally-held block is never
compressed or handed to the neutrality service); and calling
`cancel_hold_timeout` again is a no-op. -/
theorem cancel_hold_timeout_after_place_holds (st : GatewayState) (h c : Nat)
    (calls : List (Nat × ℚ)) :
    ((cancel_hold_timeout (calls.foldl (fun s p => place_hold s h p.1 p.2) st) h c).holds).lookup h = none
    ∧ (∀ hold a,
        ((calls.foldl (fun s p => place_hold s h p.1 p.2) st).holds).lookup h = some hold →
        hold.alarm = some a →
        a ∈ (cancel_hold_timeout (calls.foldl (fun s p => place_hold s h p.1 p.2) st) h c).unregistered_alarms)
    ∧ (cancel_hold_timeout (calls.foldl (fun s p => place_hold s h p.1 p.2) st) h c).alarms = st.alarms
    ∧ (∀ e ∈ (cancel_hold_timeout (calls.foldl (fun s p => place_hold s h p.1 p.2) st) h c).events,
        e ∈ st.events ∨ ∃ bh2 pq ct, e = GwEvent.broadcastBlockHolding bh2 pq ct)
    ∧ cancel_hold_timeout
        (cancel_hold_timeout (calls.foldl (fun s p => place_hold s h p.1 p.2) st) h c) h c =
      cancel_hold_timeout (calls.foldl (fun s p => place_hold s h p.1 p.2) st) h c := by
  obtain ⟨ha, _, he, _⟩ := fold_place_hold_inv h calls st
  refine ⟨cancel_hold_timeout_lookup_none _ h c, ?_, ?_, ?_, ?_⟩
  · intro hold a hl halarm
    exact cancel_hold_timeout_unregisters _ h c hold a hl halarm
  · rw [cancel_hold_timeout_alarms, ha]
  · intro e hmem
    rw [cancel_hold_timeout_events] at hmem
    exact he e hmem
  · exact cancel_hold_timeout_of_absent _ h c (cancel_hold_timeout_lookup_none _ h c)

/-- Witness for the hold-cancellation theorem: two `place_hold` calls from
the empty state, then cancellation. -/
theorem cancel_hold_timeout_after_place_holds_witness :
    ((cancel_hold_timeout ([( (1 : Nat), (0 : ℚ)), (2, 5)].foldl
        (fun s p => place_hold s 4 p.1 p.2) initGatewayState) 4 9).holds).lookup 4 = none
    ∧ cancel_hold_timeout
        (cancel_hold_timeout ([( (1 : Nat), (0 : ℚ)), (2, 5)].foldl
          (fun s p => place_hold s 4 p.1 p.2) initGatewayState) 4 9) 4 9 =
      cancel_hold_timeout ([( (1 : Nat), (0 : ℚ)), (2, 5)].foldl
        (fun s p => place_hold s 4 p.1 p.2) initGatewayState) 4 9 := by
  have h := cancel_hold_timeout_after_place_holds initGatewayState 4 9
    [((1 : Nat), (0 : ℚ)), (2, 5)]
  exact ⟨h.1, h.2.2.2.2⟩

/-- C2: `queue_block_for_processing` under the hold protocol.  When a hold
(with no armed alarm, as created by `place_hold`) exists for the block's
hash: the message is stored on the hold, a hold-timeout alarm is armed, no
broadcast or compression happens, and compression + neutrality-service
propagation occur exactly when the alarm callback `_holding_timeout` fires.
When no hold exists: a `BlockHoldingMessage` is broadcast with
`prepend_to_queue = True` to relay-block and gateway peers and the block is
immediately compressed and handed to the neutrality service. -/
theorem queue_block_for_processing_hold_protocol
    (convert : BlockMsg → Option Nat) (st : GatewayState) (bm : BlockMsg)
    (conn : Nat) (bx : Nat) (hconv : convert bm = some bx) :
    (∀ hold, st.holds.lookup bm.block_hash = some hold → hold.alarm = none →
      ((queue_block_for_processing convert st bm conn).holds).lookup bm.block_hash =
          some { hold with alarm := some st.next_alarm_id,
                           block_message := some bm, connection := some conn }
      ∧ (queue_block_for_processing convert st bm conn).alarms =
          st.alarms ++ [(st.next_alarm_id, AlarmKind.holdTimeout bm.block_hash)]
      ∧ (queue_block_for_processing convert st bm conn).events = st.events
      ∧ (holding_timeout convert (queue_block_for_processing convert st bm conn)
            bm.block_hash
            { hold with alarm := some st.next_alarm_id,
                        block_message := some bm, connection := some conn }).events =
          st.events ++ [GwEvent.neutralityPropagate bm.block_hash])
    ∧ (st.holds.lookup bm.block_hash = none →
        queue_block_for_processing convert st bm conn =
          { st with events := st.events ++
              [GwEvent.broadcastBlockHolding bm.block_hash true
                  [ConnType.RELAY_BLOCK, ConnType.GATEWAY],
                GwEvent.neutralityPropagate bm.block_hash] }) := by
  constructor
  · intro hold hlook halarm
    have hq : queue_block_for_processing convert st bm conn =
        { st with
          alarms := st.alarms ++
            [(st.next_alarm_id, AlarmKind.holdTimeout bm.block_hash)]
          next_alarm_id := st.next_alarm_id + 1
          holds := updateA bm.block_hash
            { hold with alarm := some st.next_alarm_id,
                        block_message := some bm, connection := some conn }
            st.holds } := by
      unfold queue_block_for_processing
      simp only []
      rw [hlook]
      simp only [halarm, if_true]
    refine ⟨?_, ?_, ?_, ?_⟩
    · rw [hq]
      exact lookup_updateA_self bm.block_hash _ st.holds (by rw [hlook]; rfl)
    · rw [hq]
    · rw [hq]
    · unfold holding_timeout
      simp only []
      unfold process_and_broadcast_block
      rw [hconv]
      rw [hq]
  · intro hlook
    unfold queue_block_for_processing
    simp only []
    rw [hlook]
    unfold process_and_broadcast_block
    simp only []
    rw [hconv]
    simp

/-- Witness for the hold-protocol theorem: a state with one unarmed hold
(hold case), and the empty state (no-hold case). -/
theorem queue_block_for_processing_hold_protocol_witness :
    (((queue_block_for_processing (fun _ => some 0)
        { initGatewayState with
          holds := [(4, ⟨0, 1, none, none, none, none⟩)] } ⟨4, 7⟩ 2).holds).lookup 4 =
      some ⟨0, 1, some ⟨4, 7⟩, some 0, none, some 2⟩
      ∧ (queue_block_for_processing (fun _ => some 0)
          { initGatewayState with
            holds := [(4, ⟨0, 1, none, none, none, none⟩)] } ⟨4, 7⟩ 2).events = [])
    ∧ queue_block_for_processing (fun _ => some 0) initGatewayState ⟨4, 7⟩ 2 =
      { initGatewayState with events :=
          [GwEvent.broadcastBlockHolding 4 true
              [ConnType.RELAY_BLOCK, ConnType.GATEWAY],
            GwEvent.neutralityPropagate 4] } := by
  have h := queue_block_for_processing_hold_protocol (fun _ => some 0)
    { initGatewayState with holds := [(4, ⟨0, 1, none, none, none, none⟩)] }
    ⟨4, 7⟩ 2 0 rfl
  have h2 := queue_block_for_processing_hold_protocol (fun _ => some 0)
    initGatewayState ⟨4, 7⟩ 2 0 rfl
  obtain ⟨hh, -⟩ := h
  obtain ⟨hlook, -, hev, -⟩ := hh ⟨0, 1, none, none, none, none⟩ (by decide) rfl
  exact ⟨⟨hlook, hev⟩, h2.2 (by decide)⟩

/-- C3: `schedule_recovery_retry` cancels recovery and removes the queuing
entry when the attempt count has reached
`BLOCK_RECOVERY_MAX_RETRY_ATTEMPTS` (the length of the interval list, 5) or
when the recovery started at least `blockchain_block_recovery_timeout_s`
ago; otherwise it registers an alarm after the interval indexed by the
current attempt count, and the alarm callback `_trigger_recovery_retry`
increments the attempt count and re-emits a `GetTxs` request for the
still-missing short ids. -/
theorem schedule_recovery_retry_policy (st : GatewayState)
    (info : BlockRecoveryInfoS) (now timeout_s : ℚ) (get_sid : Nat → Nat) :
    BLOCK_RECOVERY_MAX_RETRY_ATTEMPTS = BLOCK_RECOVERY_RECOVERY_INTERVAL_S.length
    ∧ BLOCK_RECOVERY_MAX_RETRY_ATTEMPTS = 5
    ∧ (BLOCK_RECOVERY_MAX_RETRY_ATTEMPTS ≤
          (st.recovery_attempts.lookup info.block_hash).getD 0
        ∨ timeout_s ≤ now - info.recovery_start_time →
      schedule_recovery_retry st info now timeout_s =
        { st with
          recovery_block_hashes := st.recovery_block_hashes.erase info.block_hash
          recovery_attempts := eraseA info.block_hash st.recovery_attempts
          block_queue := st.block_queue.erase info.block_hash })
    ∧ (¬ (BLOCK_RECOVERY_MAX_RETRY_ATTEMPTS ≤
            (st.recovery_attempts.lookup info.block_hash).getD 0
          ∨ timeout_s ≤ now - info.recovery_start_time) →
      schedule_recovery_retry st info now timeout_s =
        { st with
          alarms := st.alarms ++ [(st.next_alarm_id,
            AlarmKind.recoveryRetry info.block_hash
              (BLOCK_RECOVERY_RECOVERY_INTERVAL_S.getD
                ((st.recovery_attempts.lookup info.block_hash).getD 0) 0))]
          next_alarm_id := st.next_alarm_id + 1 })
    ∧ ((trigger_recovery_retry get_sid st info).recovery_attempts).lookup
        info.block_hash =
        some ((st.recovery_attempts.lookup info.block_hash).getD 0 + 1)
    ∧ (trigger_recovery_retry get_sid st info).events = st.events ++
        [GwEvent.broadcastGetTxs
          (info.unknown_short_ids ++ info.unknown_transaction_hashes.map get_sid)
          [ConnType.RELAY_TRANSACTION]] := by
  refine ⟨rfl, rfl, ?_, ?_, ?_, ?_⟩
  · intro hstop
    unfold schedule_recovery_retry
    simp only []
    rw [if_pos hstop]
  · intro hgo
    unfold schedule_recovery_retry
    simp only []
    rw [if_neg hgo]
  · unfold trigger_recovery_retry start_transaction_recovery
    simp only []
    exact lookup_upsertA_self info.block_hash _ st.recovery_attempts
  · unfold trigger_recovery_retry start_transaction_recovery
    simp only []

/-- Witness for the recovery-retry policy: exhausted attempts cancel; a
first attempt schedules the 0.1 s alarm; firing bumps the counter and
emits `GetTxs`. -/
theorem schedule_recovery_retry_policy_witness :
    schedule_recovery_retry
        { initGatewayState with
          recovery_attempts := [(4, 5)]
          recovery_block_hashes := [4]
          block_queue := [4] }
        ⟨4, [9], [], 0⟩ 1 100 =
      { initGatewayState with
        recovery_attempts := []
        recovery_block_hashes := []
        block_queue := [] }
    ∧ schedule_recovery_retry initGatewayState ⟨4, [9], [], 0⟩ 1 100 =
      { initGatewayState with
        alarms := [(0, AlarmKind.recoveryRetry 4 (1/10))]
        next_alarm_id := 1 }
    ∧ ((trigger_recovery_retry (fun _ => 0) initGatewayState
        ⟨4, [9], [], 0⟩).recovery_attempts).lookup 4 = some 1
    ∧ (trigger_recovery_retry (fun _ => 0) initGatewayState ⟨4, [9], [], 0⟩).events =
      [GwEvent.broadcastGetTxs [9] [ConnType.RELAY_TRANSACTION]] := by
  refine ⟨?_, ?_, ?_, ?_⟩
  · have h := (schedule_recovery_retry_policy
      { initGatewayState with
        recovery_attempts := [(4, 5)]
        recovery_block_hashes := [4]
        block_queue := [4] }
      ⟨4, [9], [], 0⟩ 1 100 (fun _ => 0)).2.2.1 (Or.inl (by decide))
    rw [h]
    simp [initGatewayState, eraseA]
  · have hgo : ¬ (BLOCK_RECOVERY_MAX_RETRY_ATTEMPTS ≤
        ((initGatewayState.recovery_attempts).lookup
          (BlockRecoveryInfoS.mk 4 [9] [] 0).block_hash).getD 0
        ∨ (100 : ℚ) ≤ 1 - (BlockRecoveryInfoS.mk 4 [9] [] 0).recovery_start_time) := by
      rintro (hA | hB)
      · exact absurd hA (by decide)
      · norm_num at hB
    have h := (schedule_recovery_retry_policy initGatewayState
      ⟨4, [9], [], 0⟩ 1 100 (fun _ => 0)).2.2.2.1 hgo
    rw [h]
    simp [initGatewayState, List.lookup, BLOCK_RECOVERY_RECOVERY_INTERVAL_S]
  · have h := (schedule_recovery_retry_policy initGatewayState
      ⟨4, [9], [], 0⟩ 1 100 (fun _ => 0)).2.2.2.2.1
    rw [h]
    simp [initGatewayState, List.lookup]
  · have h := (schedule_recovery_retry_policy initGatewayState
      ⟨4, [9], [], 0⟩ 1 100 (fun _ => 0)).2.2.2.2.2
    rw [h]
    simp [initGatewayState]

/-- C6: `process_block_broadcast` on an encrypted broadcast validates that
the message's hash equals the double-SHA256 of the ciphertext.  On
mismatch the message is dropped with no state change (no ciphertext
stored, no decryption, no `BlockReceivedMessage`).  On match with the key
already known, the ciphertext is decrypted immediately (a decryption
attempt is recorded; on success the plaintext is handed on and the
in-progress entry removed).  On match with no key, the ciphertext is
stored and a `BlockReceivedMessage` receipt is broadcast to gateway
peers. -/
theorem process_block_broadcast_validation (dsha : Nat → Nat)
    (decrypt : Nat → Nat → Option Nat) (st : GatewayState)
    (msg : BroadcastMsgS) (conn : Nat) (henc : msg.is_encrypted = true) :
    (msg.block_hash ≠ dsha msg.blob →
      process_block_broadcast dsha decrypt st msg conn = st)
    ∧ (msg.block_hash = dsha msg.blob →
      (∀ key, st.in_progress_keys.lookup msg.block_hash = some key →
        (decrypt key msg.blob = none →
          process_block_broadcast dsha decrypt st msg conn =
            { st with events := st.events ++ [GwEvent.decryptAttempt msg.block_hash] })
        ∧ ∀ block, decrypt key msg.blob = some block →
            process_block_broadcast dsha decrypt st msg conn =
              { st with
                in_progress_keys := eraseA msg.block_hash st.in_progress_keys
                in_progress_ciphertexts := eraseA msg.block_hash st.in_progress_ciphertexts
                events := st.events ++ [GwEvent.decryptAttempt msg.block_hash,
                  GwEvent.handleDecrypted block] })
      ∧ (st.in_progress_keys.lookup msg.block_hash = none →
          process_block_broadcast dsha decrypt st msg conn =
            { st with
              in_progress_ciphertexts := st.in_progress_ciphertexts ++
                [(msg.block_hash, msg.blob)]
              events := st.events ++
                [GwEvent.broadcastBlockReceived msg.block_hash [ConnType.GATEWAY]] })) := by
  constructor
  · intro hne
    unfold process_block_broadcast
    simp only [henc, Bool.not_true, Bool.false_eq_true, if_false]
    rw [if_pos hne]
  · intro heq
    constructor
    · intro key hkey
      constructor
      · intro hdec
        unfold process_block_broadcast
        simp only [henc, Bool.not_true, Bool.false_eq_true, if_false]
        rw [if_neg (by simp [heq])]
        rw [hkey]
        simp only [hdec]
      · intro block hdec
        unfold process_block_broadcast
        simp only [henc, Bool.not_true, Bool.false_eq_true, if_false]
        rw [if_neg (by simp [heq])]
        rw [hkey]
        simp only [hdec]
        simp
    · intro hkey
      unfold process_block_broadcast
      simp only [henc, Bool.not_true, Bool.false_eq_true, if_false]
      rw [if_neg (by simp [heq])]
      rw [hkey]

/-- Witness for the broadcast-validation theorem: hash mismatch drops; with
a stored key a decryption attempt is made; without one the ciphertext is
stored and a receipt broadcast. -/
theorem process_block_broadcast_validation_witness :
    process_block_broadcast (fun b => b + 1) (fun _ _ => none)
        initGatewayState ⟨3, true, 7⟩ 1 = initGatewayState
    ∧ process_block_broadcast (fun b => b) (fun _ _ => some 5)
        { initGatewayState with in_progress_keys := [(7, 2)] } ⟨7, true, 7⟩ 1 =
      { initGatewayState with
        in_progress_keys := []
        in_progress_ciphertexts := []
        events := [GwEvent.decryptAttempt 7, GwEvent.handleDecrypted 5] }
    ∧ process_block_broadcast (fun b => b) (fun _ _ => none)
        initGatewayState ⟨7, true, 7⟩ 1 =
      { initGatewayState with
        in_progress_ciphertexts := [(7, 7)]
        events := [GwEvent.broadcastBlockReceived 7 [ConnType.GATEWAY]] } := by
  refine ⟨?_, ?_, ?_⟩
  · exact (process_block_broadcast_validation (fun b => b + 1) (fun _ _ => none)
      initGatewayState ⟨3, true, 7⟩ 1 rfl).1 (by decide)
  · have h := ((process_block_broadcast_validation (fun b => b) (fun _ _ => some 5)
      { initGatewayState with in_progress_keys := [(7, 2)] }
      ⟨7, true, 7⟩ 1 rfl).2 rfl).1 2 (by decide)
    have h2 := h.2 5 rfl
    rw [h2]
    simp [initGatewayState, eraseA]
  · have h := ((process_block_broadcast_validation (fun b => b) (fun _ _ => none)
      initGatewayState ⟨7, true, 7⟩ 1 rfl).2 rfl).2 (by decide)
    rw [h]
    simp [initGatewayState]

/-- Counterexample to C2 as stated: when a hold exists whose hold-timeout
alarm is already armed (a prior block delivery for the same hash),
`queue_block_for_processing` stores nothing and changes no state — the new
message is not stored on the hold (source line 104: `if hold.alarm is
None`). -/
theorem queue_block_armed_hold_counterexample :
    queue_block_for_processing (fun _ => some 0)
        { initGatewayState with
          holds := [(4, ⟨0, 1, none, some 0, none, none⟩)]
          alarms := [(0, AlarmKind.holdTimeout 4)]
          next_alarm_id := 1 } ⟨4, 7⟩ 2 =
      { initGatewayState with
        holds := [(4, ⟨0, 1, none, some 0, none, none⟩)]
        alarms := [(0, AlarmKind.holdTimeout 4)]
        next_alarm_id := 1 }
    ∧ ((queue_block_for_processing (fun _ => some 0)
        { initGatewayState with
          holds := [(4, ⟨0, 1, none, some 0, none, none⟩)]
          alarms := [(0, AlarmKind.holdTimeout 4)]
          next_alarm_id := 1 } ⟨4, 7⟩ 2).holds).lookup 4 =
      some ⟨0, 1, none, some 0, none, none⟩ := by
  constructor
  · rfl
  · rfl
